import Mathlib

set_option maxRecDepth 100000

/-!
Verification development for the lex-intellectus pack-lifecycle and
retrieval subsystems.

The Python sources are shallowly embedded: pure functions become Lean
functions, filesystem-manipulating code becomes explicit state passing on
typed model states, Python `float` values are modelled as exact rationals
(`ℚ`), Python `int` as `ℤ`, Python strings as Lean `String` or `List Char`
(one entry per code point), and fallible code returns `Except`.
SHA-256 and Ed25519 are modelled as ideal primitives: the hash of a byte
string is modelled by an injective function (collision-free, which is the
correctness assumption the code relies on), and a signature is a pair of
the (identified) key and the signed bytes.

Conventions shared by all modules:
* Python `list.sort(key=...)` / `sorted` are stable sorts; they are
  modelled with `List.insertionSort`, which is also stable, over the same
  key order.
* Python dictionaries preserve insertion order; they are modelled with
  association lists that append fresh keys at the end.
-/

namespace LexSpec

instance instDecEqExcept {ε α : Type} [DecidableEq ε] [DecidableEq α] :
    DecidableEq (Except ε α) := fun a b =>
  match a, b with
  | .ok x, .ok y => decidable_of_iff (x = y) (by simp)
  | .error e, .error f => decidable_of_iff (e = f) (by simp)
  | .ok _, .error _ => isFalse (by simp)
  | .error _, .ok _ => isFalse (by simp)

/-! ## Generation guard enforcement (`lex_server/llm/enforcement.py`, `llm/schemas.py`) -/

namespace Enforce

/-- Model of `lex_server.llm.schemas.CitationRef` (pydantic model). -/
structure CitationRef where
  quote : String
  chunk_id : Option String := none
  practice_doc_id : Option String := none
  source_url : Option String := none
  startPos : Option Int := none
  endPos : Option Int := none
deriving DecidableEq, Repr

/-- Model of `lex_server.llm.schemas.ArgumentPath`. -/
structure ArgumentPath where
  title : String
  claims : List String
  supporting_citations : List CitationRef := []
deriving DecidableEq, Repr

/-- Model of `lex_server.llm.schemas.DefenseDirectionsResponse`. -/
structure DefenseDirectionsResponse where
  argument_paths : List ArgumentPath := []
  counterarguments : List String := []
  risks : List String := []
  missing_info : List String := []
  insufficient_authority : Bool := false
deriving DecidableEq, Repr

/-- The `_DEFAULT_INSUFFICIENT_MSG` constant of `enforcement.py`. -/
def defaultInsufficientMsg : String :=
  "Insufficient grounded content: removed claims without citations; provide more sources or refine query."

/-- The f-string message appended per dropped path in `enforce_no_citation_no_claim`. -/
def removedMsg (title : String) : String :=
  "Removed claims in path \x27" ++ title ++ "\x27 because no supporting citations were provided."

/-- One iteration of the `for p in out.argument_paths` loop of
`enforce_no_citation_no_claim`; the accumulator carries `missing_info` and
`new_paths`. -/
def enforceStep (min_citations_per_path : Int)
    (acc : List String × List ArgumentPath) (p : ArgumentPath) :
    List String × List ArgumentPath :=
  let citations_count : Int := p.supporting_citations.length
  let pm :=
    if citations_count < min_citations_per_path then
      ({ p with claims := [] }, acc.1 ++ [removedMsg p.title])
    else (p, acc.1)
  if pm.1.claims.isEmpty then (pm.2, acc.2) else (pm.2, acc.2 ++ [pm.1])

/-- Model of `enforce_no_citation_no_claim` from
`lex_server/llm/enforcement.py`.  The Python function deep-copies its input
and mutates only the copy; the embedding is pure, so non-mutation of the
input is inherent. -/
def enforce_no_citation_no_claim (resp : DefenseDirectionsResponse)
    (min_paths : Int) (min_total_claims : Int)
    (min_citations_per_path : Int) : DefenseDirectionsResponse :=
  let folded := resp.argument_paths.foldl (enforceStep min_citations_per_path)
      (resp.missing_info, [])
  let out := { resp with argument_paths := folded.2, missing_info := folded.1 }
  let paths_left : Int := out.argument_paths.length
  let claims_left : Int := ((out.argument_paths.map (fun p => p.claims.length)).sum : Nat)
  if paths_left < min_paths ∨ claims_left < min_total_claims then
    let mi :=
      if defaultInsufficientMsg ∈ out.missing_info then out.missing_info
      else out.missing_info ++ [defaultInsufficientMsg]
    { out with insufficient_authority := true, missing_info := mi }
  else out

end Enforce

/-! ## Hybrid retrieval (`lex_server/retrieval/hybrid_retrieval.py`)

Chunk texts, query terms and quotes are modelled as `List Char`, one entry
per code point, matching Python string indexing.  `str.lower` is modelled
by `Char.toLower` per code point and `str.isspace` by `Char.isWhitespace`
(both agree with Python on ASCII text).
-/

namespace Hyb

/-- Python `s.lower()` on the code-point list model. -/
def lowerStr (s : List Char) : List Char := s.map Char.toLower

/-- Python `s.strip()`: drop whitespace from both ends. -/
def pyStrip (s : List Char) : List Char :=
  ((s.dropWhile Char.isWhitespace).reverse.dropWhile Char.isWhitespace).reverse

/-- Python `hay.find(needle)`: index of the earliest occurrence of
`needle` in `hay`, `none` when absent (Python returns `-1`). -/
def findSub (hay needle : List Char) : Option Nat :=
  match hay with
  | [] => if needle.isPrefixOf ([] : List Char) then some 0 else none
  | c :: t =>
    if needle.isPrefixOf (c :: t) then some 0
    else (findSub t needle).map (fun i => i + 1)

/-- One iteration of the `for t in terms` loop of `_find_first_match`;
`low` is the lowered text and `best` the best span so far. -/
def ffmStep (low : List Char) (best : Option (Nat × Nat)) (t : List Char) :
    Option (Nat × Nat) :=
  let t2 := pyStrip t
  if t2 = [] then best
  else
    match findSub low (lowerStr t2) with
    | none => best
    | some pos =>
      match best with
      | none => some (pos, pos + t2.length)
      | some b => if pos < b.1 then some (pos, pos + t2.length) else best

/-- Model of `_find_first_match`: earliest case-insensitive match of any
term, as a `(start, end)` span. -/
def find_first_match (text : List Char) (terms : List (List Char)) :
    Option (Nat × Nat) :=
  terms.foldl (ffmStep (lowerStr text)) none

/-- The `while s > 0 and not text[s - 1].isspace(): s -= 1` loop of
`_snap_to_word_boundary`. -/
def expandLeft (text : List Char) : Nat → Nat
  | 0 => 0
  | s+1 =>
    match text.get? s with
    | some c => if c.isWhitespace then s+1 else expandLeft text s
    | none => s+1

/-- The `while e < len(text) and not text[e].isspace(): e += 1` loop of
`_snap_to_word_boundary`, fuelled by `text.length - e` (exactly the number
of steps the loop can still take). -/
def expandRightFuel (text : List Char) : Nat → Nat → Nat
  | e, 0 => e
  | e, fuel+1 =>
    match text.get? e with
    | some c => if c.isWhitespace then e else expandRightFuel text (e+1) fuel
    | none => e

/-- Right half of `_snap_to_word_boundary`. -/
def expandRight (text : List Char) (e : Nat) : Nat :=
  expandRightFuel text e (text.length - e)

/-- Model of `_snap_to_word_boundary` (the `max(0, start)` clamp is
implicit in `Nat`). -/
def snap_to_word_boundary (text : List Char) (s e : Nat) : Nat × Nat :=
  (expandLeft text s, expandRight text (min e text.length))

/-- Python slice `text[a:b]` for `0 ≤ a ≤ b`. -/
def slice (text : List Char) (a b : Nat) : List Char := (text.drop a).take (b - a)

/-- Model of the `Citation` dataclass; `stop` models the Python field
`end` (a reserved word in Lean). -/
structure Citation where
  quote : List Char
  start : Nat
  stop : Nat
  source_url : Option String
deriving DecidableEq, Repr

/-- Model of `extract_citations` from `hybrid_retrieval.py`.  `win = 220`
is inlined as in the source; Lean `Nat` subtraction gives the
`max(0, center - win // 2)` clamp. -/
def extract_citations (chunk_text : List Char) (query_terms : List (List Char))
    (source_url : Option String) (max_citations : Int) : List Citation :=
  if chunk_text = [] then [⟨[], 0, 0, source_url⟩]
  else
    let cit :=
      match find_first_match chunk_text query_terms with
      | some span =>
        let center := (span.1 + span.2) / 2
        let s0 := center - 220 / 2
        let e0 := min chunk_text.length (s0 + 220)
        let se := snap_to_word_boundary chunk_text s0 e0
        (⟨slice chunk_text se.1 se.2, se.1, se.2, source_url⟩ : Citation)
      | none =>
        let e0 := min chunk_text.length 200
        let se := snap_to_word_boundary chunk_text 0 e0
        (⟨slice chunk_text se.1 se.2, se.1, se.2, source_url⟩ : Citation)
    [cit].take (max 1 max_citations).toNat

/-- A query term `t` occurs case-insensitively in `s` (after the
`t.strip()` and empty-term guard of `_find_first_match`). -/
def occursCI (t s : List Char) : Bool :=
  pyStrip t ≠ [] && (findSub (lowerStr s) (lowerStr (pyStrip t))).isSome

/-- Model of the `FtsHit` dataclass (`fts_retrieval.py`); BM25 scores are
modelled as exact rationals. -/
structure FtsHit where
  chunk_id : String
  practice_doc_id : String
  bm25_score : ℚ
deriving DecidableEq, Repr

/-- Model of the `VectorHit` dataclass (`vector_retrieval.py`). -/
structure VectorHit where
  chunk_id : String
  practice_doc_id : String
  distance : ℚ
deriving DecidableEq, Repr

/-- One value of the `merged` dict of `merge_and_rank` (its `chunk_id`
key together with the merged-info fields). -/
structure Merged where
  chunk_id : String
  practice_doc_id : String
  fts_bm25 : Option ℚ
  vector_distance : Option ℚ
  score : ℚ
deriving DecidableEq, Repr

/-- The `merged.setdefault(h.chunk_id, {...})` step: Python dicts keep
insertion order, modelled by appending fresh keys. -/
def setdefaultEntry (l : List Merged) (m : Merged) : List Merged :=
  if l.any (fun x => x.chunk_id = m.chunk_id) then l else l ++ [m]

/-- Point update of the entry with the given `chunk_id`. -/
def updateEntry (l : List Merged) (cid : String) (f : Merged → Merged) : List Merged :=
  l.map (fun m => if m.chunk_id = cid then f m else m)

/-- The `for h in fts_hits` loop body of `merge_and_rank` (keep lowest bm25). -/
def ftsStep (l : List Merged) (h : FtsHit) : List Merged :=
  let l := setdefaultEntry l
    ⟨h.chunk_id, h.practice_doc_id, none, none, 0⟩
  updateEntry l h.chunk_id (fun m =>
    match m.fts_bm25 with
    | none => { m with fts_bm25 := some h.bm25_score }
    | some b => if h.bm25_score < b then { m with fts_bm25 := some h.bm25_score } else m)

/-- The `for h in vec_hits` loop body of `merge_and_rank` (keep lowest distance). -/
def vecStep (l : List Merged) (h : VectorHit) : List Merged :=
  let l := setdefaultEntry l
    ⟨h.chunk_id, h.practice_doc_id, none, none, 0⟩
  updateEntry l h.chunk_id (fun m =>
    match m.vector_distance with
    | none => { m with vector_distance := some h.distance }
    | some d => if h.distance < d then { m with vector_distance := some h.distance } else m)

/-- The score assignment loop of `merge_and_rank`:
`0.6 * fts_score + 0.4 * vec_score`, a missing signal contributing 0. -/
def scoreOf (fts_bm25 vector_distance : Option ℚ) : ℚ :=
  let fts_score := match fts_bm25 with
    | some b => 1 / (1 + b)
    | none => 0
  let vec_score := match vector_distance with
    | some d => 1 / (1 + d)
    | none => 0
  (6 : ℚ)/10 * fts_score + (4 : ℚ)/10 * vec_score

/-- The Python sort key
`(-score, fts_bm25 if not None else 1e9, chunk_id)` of `merge_and_rank`;
the string component is compared by code points, modelled as the
code-point list. -/
def sortKey (m : Merged) : ℚ × ℚ × List Char :=
  (-m.score, (match m.fts_bm25 with | some b => b | none => (1000000000 : ℚ)),
   m.chunk_id.toList)

/-- Lexicographic order on sort keys (the order `list.sort(key=...)` sorts by). -/
def keyLe (a b : ℚ × ℚ × List Char) : Prop :=
  a.1 < b.1 ∨ (a.1 = b.1 ∧ (a.2.1 < b.2.1 ∨ (a.2.1 = b.2.1 ∧ a.2.2 ≤ b.2.2)))

instance : DecidableRel keyLe := fun a b => by
  unfold keyLe
  infer_instance

/-- Sort order on merged entries. -/
def mergedLe (a b : Merged) : Prop := keyLe (sortKey a) (sortKey b)

instance : DecidableRel mergedLe := fun a b => by
  unfold mergedLe
  infer_instance

instance : IsTotal (ℚ × ℚ × List Char) keyLe where
  total a b := by
    unfold keyLe
    rcases lt_trichotomy a.1 b.1 with h | h | h
    · exact Or.inl (Or.inl h)
    · rcases lt_trichotomy a.2.1 b.2.1 with h2 | h2 | h2
      · exact Or.inl (Or.inr ⟨h, Or.inl h2⟩)
      · cases le_total a.2.2 b.2.2 with
        | inl h3 => exact Or.inl (Or.inr ⟨h, Or.inr ⟨h2, h3⟩⟩)
        | inr h3 => exact Or.inr (Or.inr ⟨h.symm, Or.inr ⟨h2.symm, h3⟩⟩)
      · exact Or.inr (Or.inr ⟨h.symm, Or.inl h2⟩)
    · exact Or.inr (Or.inl h)

instance : IsTrans (ℚ × ℚ × List Char) keyLe where
  trans a b c hab hbc := by
    unfold keyLe at hab hbc ⊢
    rcases hab with h1 | ⟨h1, h2⟩
    · rcases hbc with h3 | ⟨h3, _⟩
      · exact Or.inl (h1.trans h3)
      · exact Or.inl (h3 ▸ h1)
    · rcases hbc with h3 | ⟨h3, h4⟩
      · exact Or.inl (h1 ▸ h3)
      · refine Or.inr ⟨h1.trans h3, ?_⟩
        rcases h2 with h2 | ⟨h2, h5⟩
        · rcases h4 with h4 | ⟨h4, _⟩
          · exact Or.inl (h2.trans h4)
          · exact Or.inl (h4 ▸ h2)
        · rcases h4 with h4 | ⟨h4, h6⟩
          · exact Or.inl (h2 ▸ h4)
          · exact Or.inr ⟨h2.trans h4, h5.trans h6⟩

instance : IsTotal Merged mergedLe where
  total a b := IsTotal.total (r := keyLe) (sortKey a) (sortKey b)

instance : IsTrans Merged mergedLe where
  trans a b c hab hbc := IsTrans.trans (r := keyLe) _ _ _ hab hbc

/-- Model of `merge_and_rank`: dedup by `chunk_id`, score, stable sort by
`sortKey`, truncate to `top_n`.  Python `list.sort` is stable; it is
modelled by the (stable) `List.insertionSort`. -/
def merge_and_rank (fts_hits : List FtsHit) (vec_hits : List VectorHit)
    (top_n : Int) : List Merged :=
  if top_n ≤ 0 then []
  else
    let merged := vec_hits.foldl vecStep (fts_hits.foldl ftsStep [])
    let scored := merged.map (fun m =>
      { m with score := scoreOf m.fts_bm25 m.vector_distance })
    let sorted := scored.insertionSort mergedLe
    sorted.take top_n.toNat

/-- One running-minimum step (`keep best (lowest)` in `merge_and_rank`). -/
def minStep (acc : Option ℚ) (x : ℚ) : Option ℚ :=
  match acc with
  | none => some x
  | some b => if x < b then some x else some b

/-- The lowest bm25 among the fts hits for a chunk id (`None` when the
chunk never matched lexically), per the running-minimum updates of the
first loop of `merge_and_rank`. -/
def minBm25 (fts_hits : List FtsHit) (cid : String) : Option ℚ :=
  (((fts_hits.filter (fun h => h.chunk_id = cid)).map (fun h => h.bm25_score)).foldl
    minStep none)

/-- The lowest vector distance among the vector hits for a chunk id. -/
def minDist (vec_hits : List VectorHit) (cid : String) : Option ℚ :=
  (((vec_hits.filter (fun h => h.chunk_id = cid)).map (fun h => h.distance)).foldl
    minStep none)

/-- One key-insertion step of a Python dict: a fresh key is appended, an
existing key keeps its position. -/
def insertKey (acc : List String) (c : String) : List String :=
  if c ∈ acc then acc else acc ++ [c]

/-- Chunk ids appearing in either candidate list, in first-appearance
order (the key list of the `merged` dict). -/
def allCids (fts_hits : List FtsHit) (vec_hits : List VectorHit) : List String :=
  (fts_hits.map (fun h => h.chunk_id) ++ vec_hits.map (fun h => h.chunk_id)).foldl
    insertKey []

/-- Lookup of a merged entry by chunk id. -/
def findEntry (l : List Merged) (cid : String) : Option Merged :=
  l.find? (fun m => m.chunk_id = cid)

/-- The `fts_bm25` field of the entry for `cid` (`none` when the entry is
absent or has no lexical signal). -/
def entryBm25 (l : List Merged) (cid : String) : Option ℚ :=
  match findEntry l cid with
  | some m => m.fts_bm25
  | none => none

/-- The `vector_distance` field of the entry for `cid`. -/
def entryDist (l : List Merged) (cid : String) : Option ℚ :=
  match findEntry l cid with
  | some m => m.vector_distance
  | none => none

/-- Sort key a chunk id would get from its merged signals (used to state
the top-N property without referring to full entries). -/
def specKey (fts_hits : List FtsHit) (vec_hits : List VectorHit) (cid : String) :
    ℚ × ℚ × List Char :=
  let b := minBm25 fts_hits cid
  let d := minDist vec_hits cid
  (-(scoreOf b d), (match b with | some x => x | none => (1000000000 : ℚ)), cid.toList)

end Hyb

/-! ## Canonical JSON serialization (`packs/signing.py`, `canonical_json_bytes`)

The source delegates to `json.dumps(obj, ensure_ascii=False, sort_keys=True,
separators=(",", ":"), allow_nan=False)`.  The embedding models the Python
value space reachable by `json.dumps`: numbers split into `int` (exact `ℤ`)
and `float` (an exact rational or a non-finite tag), dictionary keys may be
strings, ints, floats, bools, `None`, or some other hashable object
(`other`, e.g. a tuple), which CPython rejects at key coercion.  CPython
sorts each dictionary by its original keys (raising `TypeError` on
unorderable key pairs), coerces basic non-string keys to strings, and
raises `ValueError` on non-finite floats because of `allow_nan=False`.
The embedding serializes member values before sorting the keys, while
CPython sorts first; this changes only which error surfaces on doubly
bad input, never success/failure or the produced bytes.  Errors are
collapsed to `Except String` (the spec's `EncodingError` covers both
`ValueError` and `TypeError`).  The float repr (shortest round-trip
decimal) is modelled by an injective rendering of the model rational. -/

namespace Canon

/-- Model of a Python float: an exact finite value or a non-finite tag. -/
inductive PyFloat where
  | finite (q : ℚ)
  | nan
  | inf
  | ninf
deriving DecidableEq, Repr

/-- Model of a Python dictionary key (any hashable object; non-basic ones
are collapsed into `other`). -/
inductive PyKey where
  | str (s : String)
  | int (n : ℤ)
  | float (f : PyFloat)
  | bool (b : Bool)
  | none
  | other (tag : String)
deriving DecidableEq, Repr

mutual
/-- Model of a JSON-serializable Python value. -/
inductive PyVal where
  | none
  | bool (b : Bool)
  | int (n : ℤ)
  | float (f : PyFloat)
  | str (s : String)
  | arr (xs : PyList)
  | obj (kvs : PyItems)
/-- Spine of a Python list of values. -/
inductive PyList where
  | nil
  | cons (x : PyVal) (xs : PyList)
/-- Spine of the item list of a Python dict (insertion order; keys unique
in an actual dict). -/
inductive PyItems where
  | nil
  | cons (k : PyKey) (v : PyVal) (xs : PyItems)
end

/-- Lower-case hex digit. -/
def hexDigit (n : Nat) : Char :=
  if n < 10 then Char.ofNat (48 + n) else Char.ofNat (87 + n)

/-- JSON string escaping as `json.dumps` with `ensure_ascii=False`
performs it: escape backslash, double quote and control characters. -/
def escapeChar (c : Char) : String :=
  if c = '\\' then "\\\\"
  else if c = '\"' then "\\\""
  else if c = '\n' then "\\n"
  else if c = '\r' then "\\r"
  else if c = '\t' then "\\t"
  else if c.toNat = 8 then "\\b"
  else if c.toNat = 12 then "\\f"
  else if c.toNat < 32 then
    "\\u00" ++ String.mk [hexDigit (c.toNat / 16), hexDigit (c.toNat % 16)]
  else String.singleton c

/-- A JSON string literal for `s`. -/
def jsonQuote (s : String) : String :=
  "\"" ++ String.join (s.toList.map escapeChar) ++ "\""

/-- Stand-in for the CPython `float.__repr__` shortest round-trip decimal:
an injective executable rendering of the model rational. -/
def floatRepr (q : ℚ) : String := toString q.num ++ "/" ++ toString q.den

/-- Key coercion performed by the `json` encoder for dict keys
(`keys must be str, int, float, bool or None`); non-finite float keys are
rejected because of `allow_nan=False`. -/
def coerceKey : PyKey → Except String String
  | .str s => .ok s
  | .int n => .ok (toString n)
  | .float (.finite q) => .ok (floatRepr q)
  | .float _ => .error "Out of range float values are not JSON compliant"
  | .bool b => .ok (if b then "true" else "false")
  | .none => .ok "null"
  | .other t => .error ("keys must be str, int, float, bool or None, not " ++ t)

/-- Numeric keys extended with the IEEE special values (Python compares
`int`, `bool` and `float` numerically). -/
inductive NumExt where
  | fin (q : ℚ)
  | pinf
  | ninf
  | nan
deriving DecidableEq, Repr

/-- The numeric reading of a key, when it has one. -/
def numExt : PyKey → Option NumExt
  | .int n => some (.fin (n : ℚ))
  | .bool b => some (.fin (if b then 1 else 0))
  | .float (.finite q) => some (.fin q)
  | .float .inf => some .pinf
  | .float .ninf => some .ninf
  | .float .nan => some .nan
  | _ => Option.none

/-- Python `<` on numeric values: every comparison with NaN is false. -/
def numExtLt : NumExt → NumExt → Bool
  | .nan, _ => false
  | _, .nan => false
  | .fin a, .fin b => decide (a < b)
  | .fin _, .pinf => true
  | .fin _, .ninf => false
  | .pinf, _ => false
  | .ninf, .ninf => false
  | .ninf, _ => true

/-- Python `a < b` on dict keys: strings lexicographically, numbers
numerically, anything else raises `TypeError`. -/
def pyKeyLt : PyKey → PyKey → Except String Bool
  | .str a, .str b => .ok (decide (a.toList < b.toList))
  | a, b =>
    match numExt a, numExt b with
    | some x, some y => .ok (numExtLt x y)
    | _, _ => .error "unorderable key types"

/-- Insert one serialized item into a sorted run, comparing original keys
with Python `<`; `x` goes before the first `y` with `¬ (y < x)`, which is
where a stable sort puts it. -/
def insertPairM (x : PyKey × String) :
    List (PyKey × String) → Except String (List (PyKey × String))
  | [] => .ok [x]
  | y :: ys => do
    let b ← pyKeyLt y.1 x.1
    if b then
      let rest ← insertPairM x ys
      .ok (y :: rest)
    else
      .ok (x :: y :: ys)

/-- Stable sort of the dict items by original key (`sorted(dct.items())`
under `sort_keys=True`), propagating `TypeError` from comparisons. -/
def sortItemsM : List (PyKey × String) → Except String (List (PyKey × String))
  | [] => .ok []
  | x :: xs => do
    let rest ← sortItemsM xs
    insertPairM x rest

/-- Render the sorted items, coercing each original key to a string. -/
def assembleItems : List (PyKey × String) → Except String (List String)
  | [] => .ok []
  | (k, vs) :: xs => do
    let ks ← coerceKey k
    let rest ← assembleItems xs
    .ok ((jsonQuote ks ++ ":" ++ vs) :: rest)

mutual
/-- Model of `canonical_json_bytes`: canonical serialization of a Python
value (`separators=(",", ":")`, `sort_keys=True`, `allow_nan=False`,
`ensure_ascii=False`); the result models the UTF-8 bytes. -/
def serVal : PyVal → Except String String
  | .none => .ok "null"
  | .bool b => .ok (if b then "true" else "false")
  | .int n => .ok (toString n)
  | .float (.finite q) => .ok (floatRepr q)
  | .float _ => .error "Out of range float values are not JSON compliant"
  | .str s => .ok (jsonQuote s)
  | .arr xs => do
    let parts ← serArr xs
    .ok ("[" ++ String.intercalate "," parts ++ "]")
  | .obj kvs => do
    let pairs ← serObjVals kvs
    let sorted ← sortItemsM pairs
    let parts ← assembleItems sorted
    .ok ("\x7b" ++ String.intercalate "," parts ++ "\x7d")
/-- Serialize every element of a list. -/
def serArr : PyList → Except String (List String)
  | .nil => .ok []
  | .cons x xs => do
    let s ← serVal x
    let rest ← serArr xs
    .ok (s :: rest)
/-- Serialize every member value of a dict, keeping the original keys. -/
def serObjVals : PyItems → Except String (List (PyKey × String))
  | .nil => .ok []
  | .cons k v xs => do
    let s ← serVal v
    let rest ← serObjVals xs
    .ok ((k, s) :: rest)
end

/-- A non-finite float used as a dict key. -/
def keyNonFinite : PyKey → Bool
  | .float .nan => true
  | .float .inf => true
  | .float .ninf => true
  | _ => false

/-- A key that is not a string. -/
def keyIsStr : PyKey → Bool
  | .str _ => true
  | _ => false

/-- A key outside the basic JSON-coercible types. -/
def keyIsOther : PyKey → Bool
  | .other _ => true
  | _ => false

mutual
/-- The value contains a non-finite number (as a value or dict key). -/
def hasNonFinite : PyVal → Bool
  | .float .nan => true
  | .float .inf => true
  | .float .ninf => true
  | .arr xs => hasNonFiniteArr xs
  | .obj kvs => hasNonFiniteObj kvs
  | _ => false
/-- List form of `hasNonFinite`. -/
def hasNonFiniteArr : PyList → Bool
  | .nil => false
  | .cons x xs => hasNonFinite x || hasNonFiniteArr xs
/-- Dict form of `hasNonFinite`. -/
def hasNonFiniteObj : PyItems → Bool
  | .nil => false
  | .cons k v xs => keyNonFinite k || hasNonFinite v || hasNonFiniteObj xs
end

mutual
/-- The value contains a mapping with a non-string key. -/
def hasNonStrKey : PyVal → Bool
  | .arr xs => hasNonStrKeyArr xs
  | .obj kvs => hasNonStrKeyObj kvs
  | _ => false
/-- List form of `hasNonStrKey`. -/
def hasNonStrKeyArr : PyList → Bool
  | .nil => false
  | .cons x xs => hasNonStrKey x || hasNonStrKeyArr xs
/-- Dict form of `hasNonStrKey`. -/
def hasNonStrKeyObj : PyItems → Bool
  | .nil => false
  | .cons k v xs => !keyIsStr k || hasNonStrKey v || hasNonStrKeyObj xs
end

mutual
/-- The value contains a mapping key outside str/int/float/bool/None. -/
def hasOtherKey : PyVal → Bool
  | .arr xs => hasOtherKeyArr xs
  | .obj kvs => hasOtherKeyObj kvs
  | _ => false
/-- List form of `hasOtherKey`. -/
def hasOtherKeyArr : PyList → Bool
  | .nil => false
  | .cons x xs => hasOtherKey x || hasOtherKeyArr xs
/-- Dict form of `hasOtherKey`. -/
def hasOtherKeyObj : PyItems → Bool
  | .nil => false
  | .cons k v xs => keyIsOther k || hasOtherKey v || hasOtherKeyObj xs
end

mutual
/-- The value is a CanonicalValue in the sense of the spec: finite
numbers only and every mapping key a string. -/
def isCanonical : PyVal → Bool
  | .none => true
  | .bool _ => true
  | .int _ => true
  | .float (.finite _) => true
  | .float _ => false
  | .str _ => true
  | .arr xs => isCanonicalArr xs
  | .obj kvs => isCanonicalObj kvs
/-- List form of `isCanonical`. -/
def isCanonicalArr : PyList → Bool
  | .nil => true
  | .cons x xs => isCanonical x && isCanonicalArr xs
/-- Dict form of `isCanonical`. -/
def isCanonicalObj : PyItems → Bool
  | .nil => true
  | .cons k v xs => keyIsStr k && isCanonical v && isCanonicalObj xs
end

/-- The serializer (or key coercion) raised. -/
def isError {ε α : Type} : Except ε α → Bool
  | .error _ => true
  | .ok _ => false

/-- The key list of a dict spine, in insertion order. -/
def keysOf : PyItems → List PyKey
  | .nil => []
  | .cons k _ xs => k :: keysOf xs

end Canon

/-! ## Vector index build (`lex_server/retrieval/vector_index_build.py`)

The claim concerns only the integer labels and the persisted idmap, so the
embedding keeps the row iteration, batching and idmap accumulation of
`build_vector_index` and abstracts away the embedding vectors (the
embedder returns one vector per text, so the shape checks always pass and
never reorder or drop rows). -/

namespace VecBuild

/-- One chunk row as yielded by `iter_chunks`: the SQLite `rowid`, the
chunk id string, and the chunk text. -/
structure ChunkRow where
  int_id : ℤ
  chunk_id : String
  content : String
deriving DecidableEq, Repr

/-- Order on rows used by `ORDER BY dc.rowid ASC`. -/
def rowLe (a b : ChunkRow) : Prop := a.int_id ≤ b.int_id

instance : DecidableRel rowLe := fun a b => by
  unfold rowLe
  infer_instance

instance : IsTotal ChunkRow rowLe where
  total a b := le_total a.int_id b.int_id

instance : IsTrans ChunkRow rowLe where
  trans a b c hab hbc := le_trans hab hbc

/-- Model of `iter_chunks` (production path): yield the table rows in
ascending `rowid` order.  The table is modelled as its list of rows. -/
def iter_chunks (rows : List ChunkRow) : List ChunkRow := rows.insertionSort rowLe

/-- Python dict assignment `idmap[int_id] = chunk_id`. -/
def dictInsert (d : List (ℤ × String)) (k : ℤ) (v : String) : List (ℤ × String) :=
  if d.any (fun p => p.1 = k) then d.map (fun p => if p.1 = k then (k, v) else p)
  else d ++ [(k, v)]

/-- The `add_batch` closure of `build_vector_index`, restricted to its
idmap effect (`idx.add_items` receives the same `int_ids` as labels). -/
def addBatch (acc : List (ℤ × String)) (batch : List ChunkRow) : List (ℤ × String) :=
  batch.foldl (fun a r => dictInsert a r.int_id r.chunk_id) acc

/-- Split a list into consecutive groups of `max 1 n` elements, fuelled
by the list length (with `batch_size = 0` the Python loop flushes after
every row, i.e. groups of one). -/
def chunksOfFuel (m : Nat) : Nat → List α → List (List α)
  | 0, _ => []
  | _, [] => []
  | fuel+1, l => l.take m :: chunksOfFuel m fuel (l.drop m)

/-- Consecutive batches of (at most) `max 1 n` rows. -/
def chunksOf (n : Nat) (l : List α) : List (List α) :=
  chunksOfFuel (max 1 n) l.length l

/-- Model of `build_vector_index`, restricted to the label/idmap effect:
take a first batch to determine the embedding dimension, then process the
remaining rows in batches; each batch adds its rows' `rowid`s as index
labels and records `rowid → chunk_id` in the idmap.  Fails with
`No chunks to index` on an empty table. -/
def build_vector_index_idmap (rows : List ChunkRow) (batch_size : Nat) :
    Except String (List (ℤ × String)) :=
  let n := rows.length
  if n = 0 then .error "No chunks to index"
  else
    let it := iter_chunks rows
    let first_batch := it.take (min batch_size n)
    if first_batch = [] then .error "No chunks to index"
    else
      let rest := it.drop (min batch_size n)
      .ok ((chunksOf batch_size rest).foldl addBatch (addBatch [] first_batch))

/-- The labels handed to `idx.add_items`, in insertion order. -/
def build_vector_index_labels (rows : List ChunkRow) (batch_size : Nat) :
    Except String (List ℤ) :=
  (build_vector_index_idmap rows batch_size).map (fun d => d.map (fun p => p.1))

/-- The labelling the claim describes (spec §4.6): dense labels `0..N-1`
assigned in sorted `chunk_id` order.  Stated from the spec's words, for
comparison with the labelling the code produces. -/
def claimIdmap (rows : List ChunkRow) : List (ℤ × String) :=
  (((rows.map (fun r => r.chunk_id)).insertionSort (fun a b => a.toList ≤ b.toList)).enum).map
    (fun p => ((p.1 : ℤ), p.2))

end VecBuild

/-! ## Pack lifecycle (`packs/hashing.py`, `packs/signing.py`,
`packs/build_snapshot.py`, `packs/install_snapshot.py`, `packs/delta.py`)

File contents are abstract byte strings.  SHA-256 is modelled as an ideal
injective digest and Ed25519 as an ideal signature scheme (a signature is
the pair of the key and the signed bytes; the model identifies a key pair
by one string).  Manifest JSON files are stored in parsed form; the
canonical manifest bytes are modelled by an injective encoding, so
`canonical_manifest_sha256` compares equal exactly for equal manifests,
mirroring collision-free SHA-256 over canonical JSON.  Directories are
typed: a snapshot directory holds its `payload/`-prefixed file tree plus
optional `manifest.json`/`manifest.sig`; reading an absent file is an
`OSError` (`FileNotFoundError`), distinct from the `ValueError`s the pack
code raises itself.  Errors abort a function, leaving any partially built
staging directory behind on the real filesystem; the model registers only
completed directories, which none of the stated claims observe. -/

namespace Packs

/-- Abstract file bytes. -/
abbrev Content := String

/-- Model of `sha256_file`/SHA-256: an ideal, injective digest. -/
def sha256_content (c : Content) : String := "sha256:" ++ c

/-- Byte length reported by `stat` (`st_size`). -/
def sizeOfContent (c : Content) : Nat := c.length

/-- One manifest `files` entry (`packs/hashing.py`, `file_entry`). -/
structure FileEntry where
  path : String
  size : Nat
  sha256 : String
deriving DecidableEq, Repr

/-- Parsed snapshot `manifest.json` (`packs/build_snapshot.py`). -/
structure SnapManifest where
  pack_id : String
  channel : String
  version : String
  created_at_utc : String
  files : List FileEntry
deriving DecidableEq, Repr

/-- One endpoint record of a delta manifest (`from`/`to`). -/
structure DeltaEnd where
  pack_id : String
  version : String
  manifest_sha256 : String
deriving DecidableEq, Repr

/-- The `ops` object of a delta manifest. -/
structure DeltaOps where
  add_or_replace : List FileEntry
  delete : List String
deriving DecidableEq, Repr

/-- Parsed `delta_manifest.json` (`packs/delta.py`, `build_delta`);
`fromEnd`/`toEnd` model the JSON fields `from`/`to`. -/
structure DeltaManifest where
  channel : String
  created_at_utc : String
  fromEnd : DeltaEnd
  toEnd : DeltaEnd
  ops : DeltaOps
deriving DecidableEq, Repr

/-- Injective encoding standing for the canonical JSON bytes of a file
entry. -/
def encodeEntry (e : FileEntry) : String :=
  "(p=" ++ e.path ++ ";n=" ++ toString e.size ++ ";h=" ++ e.sha256 ++ ")"

/-- Injective encoding standing for the canonical JSON bytes of a
snapshot manifest. -/
def encodeSnapManifest (m : SnapManifest) : String :=
  "snap(" ++ m.pack_id ++ ";" ++ m.channel ++ ";" ++ m.version ++ ";" ++
    m.created_at_utc ++ ";" ++ String.intercalate "," (m.files.map encodeEntry) ++ ")"

/-- Injective encoding standing for the canonical JSON bytes of a delta
manifest. -/
def encodeDeltaManifest (dm : DeltaManifest) : String :=
  "delta(" ++ dm.channel ++ ";" ++ dm.created_at_utc ++ ";from=" ++
    dm.fromEnd.pack_id ++ "," ++ dm.fromEnd.version ++ "," ++ dm.fromEnd.manifest_sha256 ++
    ";to=" ++ dm.toEnd.pack_id ++ "," ++ dm.toEnd.version ++ "," ++ dm.toEnd.manifest_sha256 ++
    ";aor=" ++ String.intercalate "," (dm.ops.add_or_replace.map encodeEntry) ++
    ";del=" ++ String.intercalate "," dm.ops.delete ++ ")"

/-- Model of `canonical_manifest_sha256` on a snapshot manifest. -/
def canonical_manifest_sha256 (m : SnapManifest) : String :=
  sha256_content (encodeSnapManifest m)

/-- Model of an Ed25519 signature: the signing key together with the
signed bytes (ideal unforgeability; a key pair is identified by one
string, so `verify` with the matching public key checks the same pair). -/
structure Sig where
  key : String
  payload : String
deriving DecidableEq, Repr

/-- Model of `sign_bytes` from `packs/signing.py`. -/
def sign_bytes (priv : String) (data : String) : Sig := ⟨priv, data⟩

/-- Model of `verify_bytes` from `packs/signing.py`. -/
def verify_bytes (pub : String) (data : String) (sig : Sig) : Bool :=
  decide (sig = ⟨pub, data⟩)

/-- Python error classes relevant to the pack code. -/
inductive Err where
  | value (msg : String)
  | os (msg : String)
  | runtime (msg : String)
deriving DecidableEq, Repr

/-- Whether the error is a `ValueError` (the class `run_once` maps to
`FAILED_HARD`). -/
def Err.isValueError : Err → Bool
  | .value _ => true
  | _ => false

/-- The message carried by an error. -/
def Err.msg : Err → String
  | .value m => m
  | .os m => m
  | .runtime m => m

/-- Association-list lookup (first match; directory entries are unique). -/
def alookup (l : List (String × α)) (k : String) : Option α :=
  (l.find? (fun kv => kv.1 = k)).map (fun kv => kv.2)

/-- Insert or replace a file (`shutil.copy2` onto an existing path
overwrites). -/
def upsertFile (l : List (String × α)) (k : String) (v : α) : List (String × α) :=
  if l.any (fun kv => kv.1 = k) then l.map (fun kv => if kv.1 = k then (k, v) else kv)
  else l ++ [(k, v)]

/-- Delete a file if present (`Path.unlink` with the `IsADirectoryError`
fallback; absent paths are skipped by the caller). -/
def removeFile (l : List (String × α)) (k : String) : List (String × α) :=
  l.filter (fun kv => kv.1 ≠ k)

/-- A snapshot directory: the `payload/` tree (keys are snapshot-root
relative, so they carry the `payload/` prefix) plus the two manifest
files, stored parsed. -/
structure SnapshotDir where
  payload : List (String × Content)
  manifest : Option SnapManifest
  sig : Option Sig
deriving DecidableEq, Repr

/-- A delta directory: copied `add_or_replace` files keyed by manifest
path, plus `delta_manifest.json`/`delta_manifest.sig`. -/
structure DeltaDir where
  files : List (String × Content)
  manifest : Option DeltaManifest
  sig : Option Sig
deriving DecidableEq, Repr

/-- An installed pack directory under `packs/`: payload files laid out at
the pack root, plus optional copies of `manifest.json`/`manifest.sig`
(modelled as separate fields). -/
structure PackDir where
  files : List (String × Content)
  manifest : Option SnapManifest
  sig : Option Sig
deriving DecidableEq, Repr

/-- Model of `_pack_rel_from_manifest_path`: strip a leading `payload/`. -/
def pack_rel_from_manifest_path (p : String) : String :=
  if "payload/".toList.isPrefixOf p.toList then p.drop 8 else p

/-- Model of `list_files` (`packs/hashing.py`): stable order, sorted by
path. -/
def sortByPath (l : List (String × Content)) : List (String × Content) :=
  l.insertionSort (fun a b => a.1.toList ≤ b.1.toList)

/-- Model of `build_snapshot` (`packs/build_snapshot.py`): build the
sorted file entries over the payload tree, write `manifest.json` and its
signature.  `created` stands for `datetime.now(timezone.utc)`. -/
def build_snapshot (payload : List (String × Content)) (pack_id channel version : String)
    (created : String) (priv : String) : Except Err SnapshotDir :=
  if payload.isEmpty then .error (.value "Missing payload dir")
  else
    let files := (sortByPath payload).map (fun kv =>
      (⟨kv.1, sizeOfContent kv.2, sha256_content kv.2⟩ : FileEntry))
    let m : SnapManifest := ⟨pack_id, channel, version, created, files⟩
    .ok ⟨payload, some m, some (sign_bytes priv (encodeSnapManifest m))⟩

/-- The per-entry loop of `verify_snapshot`: existence, size and SHA-256
checks against the snapshot directory. -/
def checkSnapFiles (payload : List (String × Content)) : List FileEntry → Except Err Unit
  | [] => .ok ()
  | e :: rest =>
    match alookup payload e.path with
    | Option.none => .error (.value ("Missing file: " ++ e.path))
    | some c =>
      if sizeOfContent c ≠ e.size then .error (.value ("Size mismatch for " ++ e.path))
      else if sha256_content c ≠ e.sha256 then .error (.value ("SHA256 mismatch for " ++ e.path))
      else checkSnapFiles payload rest

/-- Model of `verify_snapshot` (`packs/install_snapshot.py`): read and
signature-check the manifest, then check every file entry. -/
def verify_snapshot (snap : SnapshotDir) (pub : String) : Except Err Unit :=
  match snap.manifest with
  | Option.none => .error (.os "manifest.json not found")
  | some m =>
    match snap.sig with
    | Option.none => .error (.os "manifest.sig not found")
    | some sig =>
      if !verify_bytes pub (encodeSnapManifest m) sig then
        .error (.value "Snapshot signature verification failed")
      else checkSnapFiles snap.payload m.files

/-- Persisted updater state (`packs/state.json`), a JSON object whose
absent keys are modelled as `none`; `error` is the `{kind, message}`
record. -/
structure UpdState where
  state : String := "IDLE"
  channel : Option String := Option.none
  trigger : Option String := Option.none
  started_at_utc : Option String := Option.none
  plan_type : Option String := Option.none
  from_manifest_sha256 : Option String := Option.none
  to_manifest_sha256 : Option String := Option.none
  active_before : Option String := Option.none
  staging_dir : Option String := Option.none
  cache_path : Option String := Option.none
  error : Option (String × String) := Option.none
deriving DecidableEq, Repr

/-- A remote artifact directory: either a snapshot or a delta. -/
inductive Artifact where
  | snap (s : SnapshotDir)
  | delta (d : DeltaDir)
deriving DecidableEq, Repr

/-- The state of one data directory: the installed packs under `packs/`,
the `ACTIVE.txt`/`ACTIVE.prev` pointer files, `state.json`, the updater
cache, and the updater lock file.  `nextTs` supplies fresh timestamps for
staging/cache directory names, and `activeWrites` is a ghost log of every
write to `ACTIVE.txt`, used to state the pointer claims. -/
structure DataDir where
  packs : List (String × PackDir) := []
  active : Option String := Option.none
  activePrev : Option String := Option.none
  stateFile : Option UpdState := Option.none
  cache : List (String × Artifact) := []
  lock : Bool := false
  nextTs : Nat := 0
  activeWrites : List String := []
deriving DecidableEq, Repr

/-- Model of `install_snapshot` (`packs/install_snapshot.py`): verify,
require the payload directory, create a fresh staging directory, copy the
payload tree to the pack root, and atomically write `ACTIVE.txt`
(`install_snapshot` writes no `ACTIVE.prev` and copies no manifest). -/
def install_snapshot (snap : SnapshotDir) (d : DataDir) (pub : String) :
    Except Err DataDir := do
  verify_snapshot snap pub
  if snap.payload.isEmpty then throw (.value "Missing payload dir")
  else
    let staging_name := "staging_" ++ toString d.nextTs
    if (alookup d.packs staging_name).isSome then throw (.os "staging dir exists")
    else
      let pack : PackDir :=
        ⟨snap.payload.map (fun kv => (pack_rel_from_manifest_path kv.1, kv.2)),
         Option.none, Option.none⟩
      .ok { d with packs := d.packs ++ [(staging_name, pack)],
                   active := some staging_name,
                   nextTs := d.nextTs + 1,
                   activeWrites := d.activeWrites ++ [staging_name] }

/-- The `_files_map` dict of `packs/delta.py`: manifest path to
`(sha256, size)`, later entries overwriting earlier ones as in a dict. -/
def files_map (m : SnapManifest) : List (String × (String × Nat)) :=
  m.files.foldl (fun acc e => upsertFile acc e.path (e.sha256, e.size)) []

/-- Model of `build_delta` (`packs/delta.py`): diff the two manifests,
copy changed files from the target snapshot, emit the delta manifest and
its signature.  `created` stands for `datetime.now(timezone.utc)`. -/
def build_delta (fromSnap toSnap : SnapshotDir) (priv : String)
    (channel : String) (created : String) :
    Except Err DeltaDir := do
  let fm ← match fromSnap.manifest with
    | some m => pure m
    | Option.none => throw (.os "manifest.json not found")
  let tm ← match toSnap.manifest with
    | some m => pure m
    | Option.none => throw (.os "manifest.json not found")
  let from_sha := canonical_manifest_sha256 fm
  let to_sha := canonical_manifest_sha256 tm
  let fmm := files_map fm
  let tmm := files_map tm
  let add_or_replace := tmm.foldl (fun acc pe =>
    match alookup fmm pe.1 with
    | Option.none => acc ++ [(⟨pe.1, pe.2.2, pe.2.1⟩ : FileEntry)]
    | some fs => if fs.1 ≠ pe.2.1 then acc ++ [(⟨pe.1, pe.2.2, pe.2.1⟩ : FileEntry)] else acc) []
  let del := fmm.foldl (fun acc pe =>
    if (alookup tmm pe.1).isSome then acc else acc ++ [pe.1]) []
  let copied ← add_or_replace.foldlM (fun acc e =>
    match alookup toSnap.payload e.path with
    | Option.none => throw (.os ("copy source not found: " ++ e.path))
    | some c => pure (upsertFile acc e.path c)) ([] : List (String × Content))
  let dm : DeltaManifest :=
    ⟨channel, created,
     ⟨fm.pack_id, fm.version, from_sha⟩,
     ⟨tm.pack_id, tm.version, to_sha⟩,
     ⟨add_or_replace, del⟩⟩
  .ok ⟨copied, some dm, some (sign_bytes priv (encodeDeltaManifest dm))⟩

/-- The per-entry loop of `verify_delta`: each `add_or_replace` file must
exist in the delta directory with matching size and SHA-256. -/
def checkDeltaFiles (files : List (String × Content)) : List FileEntry → Except Err Unit
  | [] => .ok ()
  | e :: rest =>
    match alookup files e.path with
    | Option.none => .error (.value ("Missing delta payload file: " ++ e.path))
    | some c =>
      if sizeOfContent c ≠ e.size then .error (.value ("Size mismatch for " ++ e.path))
      else if sha256_content c ≠ e.sha256 then .error (.value ("SHA256 mismatch for " ++ e.path))
      else checkDeltaFiles files rest

/-- Model of `verify_delta` (`packs/delta.py`): signature plus
`add_or_replace` content checks; returns the parsed delta manifest. -/
def verify_delta (delta : DeltaDir) (pub : String) : Except Err DeltaManifest := do
  let dm ← match delta.manifest with
    | some m => pure m
    | Option.none => throw (.os "delta_manifest.json not found")
  let sig ← match delta.sig with
    | some s => pure s
    | Option.none => throw (.os "delta_manifest.sig not found")
  if !verify_bytes pub (encodeDeltaManifest dm) sig then
    throw (.value "Delta signature verification failed")
  else do
    checkDeltaFiles delta.files dm.ops.add_or_replace
    pure dm

/-- Model of `_read_active_pack_dir`: resolve `ACTIVE.txt` to the named
pack directory. -/
def read_active_pack_dir (d : DataDir) : Except Err (String × PackDir) :=
  match d.active with
  | Option.none => .error (.value "no active pack; install snapshot first")
  | some name =>
    if name = "" then .error (.value "ACTIVE.txt is empty")
    else
      match alookup d.packs name with
      | Option.none => .error (.value ("Active pack dir missing: " ++ name))
      | some p => .ok (name, p)

/-- Set membership test for path lists (the `got_paths != expected_paths`
comparison is between Python sets). -/
def sameSet (a b : List String) : Bool :=
  a.all (fun x => b.contains x) && b.all (fun x => a.contains x)

/-- Model of `_list_pack_payload_files`: every file of the pack directory
except the top-level `manifest.json`/`manifest.sig` (which the model
stores apart, so this is the key list). -/
def list_pack_payload_files (p : PackDir) : List String :=
  (p.files.map (fun kv => kv.1)).filter
    (fun r => r ≠ "manifest.json" && r ≠ "manifest.sig")

/-- The per-file size/SHA-256 loop of the strict final verification of
`apply_delta`. -/
def checkStagingFiles (staging : List (String × Content)) :
    List (String × (String × Nat)) → Except Err Unit
  | [] => .ok ()
  | pe :: rest =>
    match alookup staging (pack_rel_from_manifest_path pe.1) with
    | Option.none => .error (.os ("stat: file not found: " ++ pe.1))
    | some c =>
      if sizeOfContent c ≠ pe.2.2 then .error (.value ("Size mismatch for " ++ pe.1))
      else if sha256_content c ≠ pe.2.1 then .error (.value ("SHA256 mismatch for " ++ pe.1))
      else checkStagingFiles staging rest

/-- The optional strict final verification of `apply_delta` against the
provided target snapshot: on success the target manifest and signature
are copied into the staging pack. -/
def finalizeStaging (staging2 : PackDir) (dm : DeltaManifest)
    (to_snapshot : Option SnapshotDir) (pub : String) : Except Err PackDir :=
  match to_snapshot with
  | Option.none => .ok staging2
  | some ts =>
    match verify_snapshot ts pub with
    | .error e => .error e
    | .ok _ =>
      match ts.manifest with
      | Option.none => .error (.os "manifest.json not found")
      | some to_manifest =>
        let to_sha := canonical_manifest_sha256 to_manifest
        let to_expected := dm.toEnd.manifest_sha256
        if to_expected = "" then .error (.value "delta_manifest.to.manifest_sha256 missing")
        else if to_sha ≠ to_expected then
          .error (.value "Provided TO snapshot does not match delta 'to' manifest")
        else
          let tmm := files_map to_manifest
          let expected_paths := tmm.map (fun pe => pack_rel_from_manifest_path pe.1)
          let got_paths := list_pack_payload_files staging2
          if !sameSet got_paths expected_paths then
            .error (.value "Payload file set mismatch")
          else
            match checkStagingFiles staging2.files tmm with
            | .error e => .error e
            | .ok _ =>
              match ts.sig with
              | Option.none => .error (.os "manifest.sig not found")
              | some tsig => .ok { staging2 with manifest := some to_manifest, sig := some tsig }

/-- Model of `apply_delta` (`packs/delta.py`), continued: verify the
delta, check the active pack against `from`, copy the active pack into a
fresh staging directory, apply `delete` and `add_or_replace`, run the
strict final verification, and atomically switch `ACTIVE.txt`, preserving
the previous pointer in `ACTIVE.prev`. -/
def apply_delta (delta : DeltaDir) (d : DataDir) (pub : String)
    (to_snapshot : Option SnapshotDir) : Except Err DataDir :=
  match verify_delta delta pub with
  | .error e => .error e
  | .ok dm =>
    match read_active_pack_dir d with
    | .error e => .error e
    | .ok ap =>
      let active_pack := ap.2
      let from_expected := dm.fromEnd.manifest_sha256
      if from_expected = "" then .error (.value "delta_manifest.from.manifest_sha256 missing")
      else
        match active_pack.manifest with
        | Option.none => .error (.os "manifest.json not found in active pack")
        | some active_manifest =>
          if canonical_manifest_sha256 active_manifest ≠ from_expected then
            .error (.value "Active pack does not match delta 'from' manifest")
          else
            let staging_name := "staging_" ++ toString d.nextTs
            if (alookup d.packs staging_name).isSome then .error (.os "staging dir exists")
            else
              let staging1 : PackDir := dm.ops.delete.foldl (fun st p =>
                { st with files := removeFile st.files (pack_rel_from_manifest_path p) })
                active_pack
              match (dm.ops.add_or_replace.foldlM (fun fs e =>
                  match alookup delta.files e.path with
                  | Option.none => throw (.os ("copy source not found: " ++ e.path))
                  | some c => pure (upsertFile fs (pack_rel_from_manifest_path e.path) c))
                  staging1.files : Except Err (List (String × Content))) with
              | .error e => .error e
              | .ok stagingFiles =>
                match finalizeStaging { staging1 with files := stagingFiles } dm
                    to_snapshot pub with
                | .error e => .error e
                | .ok final =>
                  let d1 := { d with packs := d.packs ++ [(staging_name, final)],
                                     nextTs := d.nextTs + 1 }
                  let d2 := match d1.active with
                    | some cur => { d1 with activePrev := some cur }
                    | Option.none => d1
                  .ok { d2 with active := some staging_name,
                                activeWrites := d2.activeWrites ++ [staging_name] }

end Packs

/-! ## Offline updater (`packs/updater.py`)

The updater is modelled over `Packs.DataDir` with explicit state passing:
`run_once` returns the final data directory together with the Python
result (`Except`), and every `_save_state` persists into the model state
file.  The remote repository is a map from channel names to a
`latest.json` plus artifact directories keyed by channel-relative paths.
The `fault_injection` test hook is not modelled (no claim depends on it),
and `_save_state`/lock I/O are assumed not to fail. -/

namespace Upd

open Packs

/-- The state-machine constants of `packs/updater.py`. -/
def IDLE : String := "IDLE"

/-- `CHECKING` state constant. -/
def CHECKING : String := "CHECKING"

/-- `DOWNLOADING` state constant. -/
def DOWNLOADING : String := "DOWNLOADING"

/-- `STAGING` state constant. -/
def STAGING : String := "STAGING"

/-- `VERIFYING` state constant. -/
def VERIFYING : String := "VERIFYING"

/-- `APPLYING` state constant. -/
def APPLYING : String := "APPLYING"

/-- `CLEANUP` state constant. -/
def CLEANUP : String := "CLEANUP"

/-- `FAILED_RETRYABLE` state constant. -/
def FAILED_RETRYABLE : String := "FAILED_RETRYABLE"

/-- `FAILED_HARD` state constant. -/
def FAILED_HARD : String := "FAILED_HARD"

/-- Model of the `UpdatePlan` dataclass. -/
structure UpdatePlan where
  plan_type : String
  channel : String
  pack_id : String
  from_version : Option String
  to_version : String
  artifact_kind : String
  artifact_ref : String
  from_manifest_sha256 : Option String
  to_manifest_sha256 : String
deriving DecidableEq, Repr

/-- The optional `delta` object of a channel `latest.json`. -/
structure LatestDelta where
  from_manifest_sha256 : String
  from_version : String
  path : String
deriving DecidableEq, Repr

/-- A channel `latest.json`. -/
structure Latest where
  pack_id : String
  channel : String
  latest_version : String
  snapshot_path : String
  to_manifest_sha256 : String
  delta : Option LatestDelta
deriving DecidableEq, Repr

/-- One remote channel directory: `latest.json` plus artifact directories
keyed by channel-relative path (e.g. `snapshots/<ver>`). -/
structure Channel where
  latest : Option Latest
  arts : List (String × Artifact)
deriving DecidableEq, Repr

/-- The remote repository directory. -/
structure Remote where
  channels : List (String × Channel)
deriving DecidableEq, Repr

/-- Constructor arguments of `OfflineUpdater` that stay fixed during a
run: the remote directory and the public key. -/
structure UpdEnv where
  remote : Remote
  pub : String
deriving DecidableEq, Repr

/-- Model of `_load_state`: absent `state.json` reads as `{state: IDLE}`
(the unparsable-file branch is not modelled). -/
def load_state (d : DataDir) : UpdState := d.stateFile.getD {}

/-- Model of `_save_state` (atomic write of `state.json`). -/
def save_state (d : DataDir) (st : UpdState) : DataDir := { d with stateFile := some st }

/-- Model of `_set_active_name_atomic`: preserve the current pointer into
`ACTIVE.prev`, then atomically replace `ACTIVE.txt`; the ghost write log
records the write. -/
def set_active_name_atomic (d : DataDir) (new_name : String) : DataDir :=
  let d1 := match d.active with
    | some cur => { d with activePrev := some cur }
    | Option.none => d
  { d1 with active := some new_name, activeWrites := d1.activeWrites ++ [new_name] }

/-- Model of `_read_active_name`. -/
def read_active_name (d : DataDir) : Except Err String :=
  match d.active with
  | Option.none => .error (.value "no active pack; install snapshot first")
  | some name =>
    if name = "" then .error (.value "ACTIVE.txt is empty") else .ok name

/-- Model of `_get_active_pack_dir`. -/
def get_active_pack_dir (d : DataDir) : Except Err (String × PackDir) := do
  let name ← read_active_name d
  match alookup d.packs name with
  | Option.none => throw (.value "ACTIVE points to missing pack dir")
  | some p => pure (name, p)

/-- Model of `_active_manifest_sha`: reading an absent `manifest.json` in
the active pack raises `FileNotFoundError` (an `OSError`). -/
def active_manifest_sha (d : DataDir) : Except Err String := do
  let ap ← get_active_pack_dir d
  match ap.2.manifest with
  | Option.none => throw (.os "manifest.json not found")
  | some m => pure (canonical_manifest_sha256 m)

/-- Model of `check_updates`: read the channel `latest.json`, compare the
active manifest sha, prefer an applicable delta, else a full snapshot. -/
def check_updates (env : UpdEnv) (d : DataDir) (channel : String) :
    Except Err (Option UpdatePlan) := do
  let active_sha ← active_manifest_sha d
  let ch ← match alookup env.remote.channels channel with
    | Option.none => throw (.os "latest.json not found")
    | some ch => pure ch
  let latest ← match ch.latest with
    | Option.none => throw (.os "latest.json not found")
    | some l => pure l
  if active_sha = latest.to_manifest_sha256 then pure Option.none
  else
    match latest.delta with
    | some dl =>
      if dl.from_manifest_sha256 = active_sha then
        pure (some ⟨"delta", channel, latest.pack_id, some dl.from_version,
          latest.latest_version, "delta_dir", dl.path, some dl.from_manifest_sha256,
          latest.to_manifest_sha256⟩)
      else
        pure (some ⟨"snapshot", channel, latest.pack_id, Option.none,
          latest.latest_version, "snapshot_dir", latest.snapshot_path, Option.none,
          latest.to_manifest_sha256⟩)
    | Option.none =>
      pure (some ⟨"snapshot", channel, latest.pack_id, Option.none,
        latest.latest_version, "snapshot_dir", latest.snapshot_path, Option.none,
        latest.to_manifest_sha256⟩)

/-- Model of `recover_on_startup`: when `state.json` is not IDLE, restore
`ACTIVE` to the recorded `active_before` when it differs, best-effort
remove the recorded staging and cache directories, and persist IDLE. -/
def recover_on_startup (d : DataDir) : DataDir :=
  let state := load_state d
  if state.state = IDLE then d
  else
    let d1 := match state.active_before with
      | some ab =>
        if ab ≠ "" then
          match d.active with
          | some cur => if cur ≠ "" && cur ≠ ab then set_active_name_atomic d ab else d
          | Option.none => d
        else d
      | Option.none => d
    let d2 := match state.staging_dir with
      | some sn => if sn ≠ "" then { d1 with packs := d1.packs.filter (fun kv => kv.1 ≠ sn) } else d1
      | Option.none => d1
    let d3 := match state.cache_path with
      | some cp => if cp ≠ "" then { d2 with cache := d2.cache.filter (fun kv => kv.1 ≠ cp) } else d2
      | Option.none => d2
    save_state d3 { state with state := IDLE }

/-- Model of `_download`: a missing remote artifact raises `ValueError`;
otherwise the artifact directory is copied into a fresh cache directory
whose packs-relative path is returned. -/
def download (env : UpdEnv) (d : DataDir) (plan : UpdatePlan) :
    Except Err (DataDir × String × Artifact) :=
  match (alookup env.remote.channels plan.channel).bind
      (fun ch => alookup ch.arts plan.artifact_ref) with
  | Option.none =>
    .error (.value ("Remote artifact missing: " ++ plan.channel ++ "/" ++ plan.artifact_ref))
  | some a =>
    let cache_name := "cache/cache_" ++ plan.plan_type ++ "_" ++ toString d.nextTs
    .ok ({ d with cache := upsertFile d.cache cache_name a, nextTs := d.nextTs + 1 },
         cache_name, a)

/-- Model of `_verify`: dispatch on the plan type; reading the expected
manifest file from an artifact of the other kind fails with
`FileNotFoundError`. -/
def verify_plan (env : UpdEnv) (plan : UpdatePlan) (art : Artifact) : Except Err Unit :=
  if plan.plan_type = "snapshot" then
    match art with
    | .snap s => do
      verify_snapshot s env.pub
      let m ← match s.manifest with
        | some m => pure m
        | Option.none => throw (.os "manifest.json not found")
      if canonical_manifest_sha256 m ≠ plan.to_manifest_sha256 then
        throw (.value "Downloaded snapshot does not match expected manifest sha")
      else pure ()
    | .delta _ => .error (.os "manifest.json not found")
  else if plan.plan_type = "delta" then
    match art with
    | .delta dd => do
      let dm ← verify_delta dd env.pub
      if dm.toEnd.manifest_sha256 ≠ plan.to_manifest_sha256 then
        throw (.value "Downloaded delta does not match expected to manifest sha")
      else pure ()
    | .snap _ => .error (.os "delta_manifest.json not found")
  else .error (.value "Unknown plan_type")

/-- Model of `_apply_snapshot` (the updater's own snapshot install):
create and record the staging directory, copy the payload to the pack
root, copy `manifest.json`/`manifest.sig` into the pack, switch `ACTIVE`. -/
def apply_snapshot (d : DataDir) (snap : SnapshotDir) (st : UpdState) :
    Except Err (DataDir × UpdState) :=
  if snap.payload.isEmpty then .error (.value "snapshot missing payload/")
  else
    let staging_name := "staging_" ++ toString d.nextTs
    if (alookup d.packs staging_name).isSome then .error (.os "staging dir exists")
    else
      let st1 := { st with staging_dir := some staging_name }
      let d1 := save_state { d with nextTs := d.nextTs + 1 } st1
      match snap.manifest with
      | Option.none => .error (.os "manifest.json not found")
      | some m =>
        match snap.sig with
        | Option.none => .error (.os "manifest.sig not found")
        | some sg =>
          let pack : PackDir :=
            ⟨(sortByPath snap.payload).map (fun kv => (pack_rel_from_manifest_path kv.1, kv.2)),
             some m, some sg⟩
          let d2 := { d1 with packs := d1.packs ++ [(staging_name, pack)] }
          .ok (set_active_name_atomic d2 staging_name, st1)

/-- Resolve `remote_dir/channel/snapshots/<to_version>` as `_apply` does
for the delta path; a missing or non-snapshot directory behaves like a
directory without `manifest.json`. -/
def resolve_to_snapshot (env : UpdEnv) (plan : UpdatePlan) : SnapshotDir :=
  match (alookup env.remote.channels plan.channel).bind
      (fun ch => alookup ch.arts ("snapshots/" ++ plan.to_version)) with
  | some (.snap s) => s
  | some (.delta dd) => ⟨dd.files, Option.none, Option.none⟩
  | Option.none => ⟨[], Option.none, Option.none⟩

/-- Model of `_apply` (without the `fault_injection` test hook): the
snapshot path installs via `apply_snapshot`; the delta path calls
`packs.delta.apply_delta` with the remote target snapshot directory. -/
def apply_plan (env : UpdEnv) (d : DataDir) (plan : UpdatePlan) (art : Artifact)
    (st : UpdState) : Except Err (DataDir × UpdState) :=
  if plan.plan_type = "snapshot" then
    match art with
    | .snap s => apply_snapshot d s st
    | .delta _ => .error (.value "snapshot missing payload/")
  else
    match art with
    | .delta dd =>
      match Packs.apply_delta dd d env.pub (some (resolve_to_snapshot env plan)) with
      | .error e => .error e
      | .ok d2 => .ok (d2, st)
    | .snap _ => .error (.os "delta_manifest.json not found")

/-- The body of `run_once` inside its `try` block, with the state dict
threaded explicitly; returns the data directory as left by the last
completed step together with the Python outcome. -/
def run_once_core (env : UpdEnv) (d : DataDir) (channel : String) (trigger : String) :
    DataDir × Except Err Unit :=
  let d := recover_on_startup d
  let st : UpdState := { state := CHECKING, channel := some channel,
                         trigger := some trigger, started_at_utc := some "utc" }
  let d := save_state d st
  match check_updates env d channel with
  | .error e => (d, .error e)
  | .ok Option.none => (save_state d {}, .ok ())
  | .ok (some plan) =>
    match read_active_name d with
    | .error e => (d, .error e)
    | .ok ab =>
      let st := { st with
        plan_type := some plan.plan_type, channel := some plan.channel,
        from_manifest_sha256 := plan.from_manifest_sha256,
        to_manifest_sha256 := some plan.to_manifest_sha256,
        active_before := some ab, staging_dir := Option.none,
        cache_path := Option.none, error := Option.none }
      let d := save_state d st
      let st := { st with state := DOWNLOADING }
      let d := save_state d st
      match download env d plan with
      | .error e => (d, .error e)
      | .ok (d, cache_name, art) =>
        let st := { st with cache_path := some cache_name }
        let d := save_state d st
        let st := { st with state := STAGING }
        let d := save_state d st
        let st := { st with state := VERIFYING }
        let d := save_state d st
        match verify_plan env plan art with
        | .error e => (d, .error e)
        | .ok _ =>
          let st := { st with state := APPLYING }
          let d := save_state d st
          match apply_plan env d plan art st with
          | .error e => (d, .error e)
          | .ok (d, st) =>
            let st := { st with state := CLEANUP }
            let d := save_state d st
            let d := { d with cache := d.cache.filter (fun kv => kv.1 ≠ cache_name) }
            (save_state d {}, .ok ())

/-- Model of `run_once`: take the lock, run the body, and on any raised
error reload the persisted state and mark it `FAILED_HARD` (for
`ValueError`) or `FAILED_RETRYABLE` (anything else) before re-raising;
the lock is released in all cases. -/
def run_once (env : UpdEnv) (d : DataDir) (channel : String)
    (trigger : String) : DataDir × Except Err Unit :=
  if d.lock then (d, .error (.runtime "Updater lock already held"))
  else
    let dl := { d with lock := true }
    let res := run_once_core env dl channel trigger
    let d2 := match res.2 with
      | .ok _ => res.1
      | .error e =>
        let st := load_state res.1
        let st :=
          if e.isValueError then
            { st with state := FAILED_HARD, error := some ("hard", e.msg) }
          else
            { st with state := FAILED_RETRYABLE, error := some ("retryable", e.msg) }
        save_state res.1 st
    ({ d2 with lock := false }, res.2)

end Upd

/-! ## Concrete instances used by witnesses and counterexamples

The snapshot pair mirrors the fixture of `packs/test_delta_apply.py`:
snapshot A carries `docs/a.txt` (v1), `docs/old.txt` and an unchanged
file, snapshot B modifies `a.txt`, adds `b.txt` and drops `old.txt`. -/

namespace Ex

open Packs Upd

/-- Payload of snapshot A. -/
def payA : List (String × Content) :=
  [("payload/docs/a.txt", "hello v1"), ("payload/docs/old.txt", "to be deleted"),
   ("payload/meta.json", "meta")]

/-- Payload of snapshot B. -/
def payB : List (String × Content) :=
  [("payload/docs/a.txt", "hello v2"), ("payload/docs/b.txt", "new file"),
   ("payload/meta.json", "meta")]

/-- Snapshot A, built and signed with the model key `key`. -/
def snapA : SnapshotDir :=
  match build_snapshot payA "pk" "stable" "v1" "t1" "key" with
  | .ok s => s
  | .error _ => ⟨[], none, none⟩

/-- Snapshot B. -/
def snapB : SnapshotDir :=
  match build_snapshot payB "pk" "stable" "v2" "t2" "key" with
  | .ok s => s
  | .error _ => ⟨[], none, none⟩

/-- The delta A→B produced by `build_delta`. -/
def deltaAB : DeltaDir :=
  match build_delta snapA snapB "key" "stable" "t3" with
  | .ok dd => dd
  | .error _ => ⟨[], none, none⟩

/-- The data directory produced by installing snapshot A into an empty
data directory. -/
def dInstallA : DataDir :=
  match install_snapshot snapA {} "key" with
  | .ok d => d
  | .error _ => {}

/-- A pack directory holding snapshot A installed together with its
manifest (as the updater's `_apply_snapshot` lays packs out). -/
def packA : PackDir :=
  ⟨payA.map (fun kv => (pack_rel_from_manifest_path kv.1, kv.2)), snapA.manifest, snapA.sig⟩

/-- The canonical sha of snapshot B's manifest. -/
def shaB : String :=
  canonical_manifest_sha256 (match snapB.manifest with
    | some m => m
    | none => ⟨"", "", "", "", []⟩)

/-- A channel `latest.json` advertising snapshot B. -/
def latestB : Latest := ⟨"pk", "stable", "v2", "snapshots/v2", shaB, none⟩

/-- Remote whose `latest.json` advertises snapshot B but whose artifact
directory is absent. -/
def env6 : UpdEnv := ⟨⟨[("stable", ⟨some latestB, []⟩)]⟩, "key"⟩

/-- A data directory with snapshot A active (manifest present) and an
IDLE state file. -/
def d6 : DataDir := { packs := [("p1", packA)], active := some "p1" }

/-- Remote advertising snapshot B with the artifact present. -/
def env2 : UpdEnv :=
  ⟨⟨[("stable", ⟨some latestB, [("snapshots/v2", .snap snapB)]⟩)]⟩, "key"⟩

/-- A leftover pack directory from a crashed update. -/
def packX : PackDir := ⟨[("x.txt", "x")], none, none⟩

/-- A data directory as a crash between the `ACTIVE` switch and the final
IDLE save leaves it: `state.json` still says CLEANUP with
`active_before = p1`, while `ACTIVE` already names the new pack. -/
def d2start : DataDir :=
  { packs := [("p1", packA), ("stg2", packX)], active := some "stg2",
    stateFile := some { state := "CLEANUP", active_before := some "p1",
                        staging_dir := some "stg2" },
    nextTs := 10 }

/-- An enforcement input whose single path has claims but no citations. -/
def c3resp : Enforce.DefenseDirectionsResponse :=
  { argument_paths := [⟨"Only path", ["C1"], []⟩] }

/-- A 300-code-point chunk text `ab ab … ab abc` (99 repetitions of
`ab ` followed by `abc`). -/
def exP : List Char := (String.join (List.replicate 99 "ab ")).toList ++ ['a', 'b', 'c']

/-- A small chunk text for the C4 witness. -/
def exText4 : List Char := "hello brave new world".toList

/-- Query terms for the C4 witness. -/
def exTerms4 : List (List Char) := ["new".toList]

/-- Lexical candidates for the C5 witness. -/
def fts5 : List Hyb.FtsHit := [⟨"c1", "d1", (1 : ℚ)/2⟩, ⟨"b", "d", 1⟩, ⟨"a", "d", 1⟩]

/-- Vector candidates for the C5 witness. -/
def vec5 : List Hyb.VectorHit := [⟨"c1", "d1", (1 : ℚ)/5⟩, ⟨"c2", "d2", (1 : ℚ)/10⟩]

/-- A mapping with the integer key `1` (Python `{1: "a"}`). -/
def exIntKeyObj : Canon.PyVal := .obj (.cons (.int 1) (.str "a") .nil)

/-- A list containing a NaN float. -/
def exNan : Canon.PyVal := .arr (.cons (.float .nan) .nil)

/-- A mapping with a tuple key. -/
def exOtherKey : Canon.PyVal := .obj (.cons (.other "tuple") (.int 1) .nil)

/-- A CanonicalValue with unsorted string keys and nested members. -/
def exCanon : Canon.PyVal :=
  .obj (.cons (.str "b") (.int 2)
    (.cons (.str "a") (.arr (.cons .none (.cons (.bool true) .nil))) .nil))

/-- Two chunk rows whose rowid order disagrees with their chunk-id order. -/
def rows9 : List VecBuild.ChunkRow := [⟨1, "b", "t1"⟩, ⟨2, "a", "t2"⟩]

end Ex

/-! ## Theorems -/

/-! ### C3: enforcement guarantees -/

theorem enf_step_cited (mcp : Int) (acc : List String × List Enforce.ArgumentPath)
    (p : Enforce.ArgumentPath)
    (hacc : ∀ q ∈ acc.2, mcp ≤ (q.supporting_citations.length : Int)) :
    ∀ q ∈ (Enforce.enforceStep mcp acc p).2, mcp ≤ (q.supporting_citations.length : Int) := by
  intro q hq
  by_cases hc : (p.supporting_citations.length : Int) < mcp
  · simp [Enforce.enforceStep, hc] at hq
    exact hacc q hq
  · by_cases he : p.claims.isEmpty
    · simp [Enforce.enforceStep, hc, he] at hq
      exact hacc q hq
    · simp [Enforce.enforceStep, hc, he] at hq
      rcases hq with hq | rfl
      · exact hacc q hq
      · exact le_of_not_lt hc

theorem enf_foldl_cited (mcp : Int) (l : List Enforce.ArgumentPath)
    (acc : List String × List Enforce.ArgumentPath)
    (hacc : ∀ q ∈ acc.2, mcp ≤ (q.supporting_citations.length : Int)) :
    ∀ q ∈ (l.foldl (Enforce.enforceStep mcp) acc).2,
      mcp ≤ (q.supporting_citations.length : Int) := by
  induction l generalizing acc with
  | nil => exact hacc
  | cons p l ih =>
    simpa only [List.foldl_cons] using ih _ (enf_step_cited mcp acc p hacc)

theorem enf_paths_eq (resp : Enforce.DefenseDirectionsResponse) (mp mtc mcp : Int) :
    (Enforce.enforce_no_citation_no_claim resp mp mtc mcp).argument_paths
      = (resp.argument_paths.foldl (Enforce.enforceStep mcp) (resp.missing_info, [])).2 := by
  simp only [Enforce.enforce_no_citation_no_claim]
  split <;> rfl

/-- C3: for every `DefenseDirectionsResponse`, enforcement returns a
result in which every retained argument path has at least
`min_citations_per_path` supporting citations, and whenever the remaining
paths or total claims fall below the minimums, `insufficient_authority`
is true.  The Python function deep-copies its argument
(`model_copy(deep=True)`) and mutates only the copy, so the input is left
unmodified; the embedding is pure, where this holds by construction. -/
theorem C3_enforcement_guarantees (resp : Enforce.DefenseDirectionsResponse)
    (mp mtc mcp : Int) :
    (∀ p ∈ (Enforce.enforce_no_citation_no_claim resp mp mtc mcp).argument_paths,
        mcp ≤ (p.supporting_citations.length : Int))
    ∧ ((((Enforce.enforce_no_citation_no_claim resp mp mtc mcp).argument_paths.length : Int) < mp
        ∨ ((((Enforce.enforce_no_citation_no_claim resp mp mtc mcp).argument_paths.map
              (fun p => p.claims.length)).sum : Nat) : Int) < mtc)
        → (Enforce.enforce_no_citation_no_claim resp mp mtc mcp).insufficient_authority = true) := by
  constructor
  · intro p hp
    rw [enf_paths_eq] at hp
    exact enf_foldl_cited mcp resp.argument_paths _ (by intro q h; cases h) p hp
  · intro hcond
    rw [enf_paths_eq resp mp mtc mcp] at hcond
    simp only [Enforce.enforce_no_citation_no_claim]
    split
    · rfl
    · rename_i hneg
      exact absurd hcond hneg

/-- Witness for C3 at a concrete response whose only path has no
citations: enforcement flags insufficient authority. -/
theorem C3_enforcement_guarantees_witness :
    (Enforce.enforce_no_citation_no_claim Ex.c3resp 1 1 1).insufficient_authority = true :=
  (C3_enforcement_guarantees Ex.c3resp 1 1 1).2 (by decide)

/-! ### C4: citation extraction invariants -/

theorem hyb_lowerStr_length (l : List Char) : (Hyb.lowerStr l).length = l.length :=
  List.length_map l Char.toLower

theorem hyb_findSub_sound (needle : List Char) :
    ∀ (hay : List Char) (i : Nat), Hyb.findSub hay needle = some i →
      needle <+: hay.drop i ∧ i + needle.length ≤ hay.length := by
  intro hay
  induction hay with
  | nil =>
    intro i h
    unfold Hyb.findSub at h
    split at h
    · rename_i hp
      cases h
      have hpre : needle <+: ([] : List Char) := List.isPrefixOf_iff_prefix.mp hp
      have := hpre.length_le
      simp only [List.drop_nil, List.length_nil] at *
      exact ⟨hpre, by omega⟩
    · exact absurd h (by simp)
  | cons c t ih =>
    intro i h
    unfold Hyb.findSub at h
    split at h
    · rename_i hp
      cases h
      have hpre : needle <+: c :: t := List.isPrefixOf_iff_prefix.mp hp
      have hle := hpre.length_le
      simp only [List.length_cons] at hle
      simp only [List.drop_zero, List.length_cons]
      exact ⟨hpre, by omega⟩
    · rw [Option.map_eq_some'] at h
      obtain ⟨j, hj, rfl⟩ := h
      obtain ⟨h1, h2⟩ := ih j hj
      refine ⟨h1, ?_⟩
      simp only [List.length_cons]
      omega

theorem hyb_findSub_complete (needle : List Char) :
    ∀ (hay : List Char) (i : Nat), needle <+: hay.drop i →
      (Hyb.findSub hay needle).isSome = true := by
  intro hay
  induction hay with
  | nil =>
    intro i h
    rw [List.drop_nil, List.prefix_nil] at h
    subst h
    rfl
  | cons c t ih =>
    intro i h
    unfold Hyb.findSub
    split
    · rfl
    · rename_i hp
      cases i with
      | zero =>
        rw [List.drop_zero] at h
        exact absurd (List.isPrefixOf_iff_prefix.mpr h) hp
      | succ j =>
        have hj : needle <+: t.drop j := h
        have := ih j hj
        simpa using this

theorem hyb_expandLeft_le (text : List Char) : ∀ s, Hyb.expandLeft text s ≤ s := by
  intro s
  induction s with
  | zero => exact le_rfl
  | succ s ih =>
    unfold Hyb.expandLeft
    split
    · split
      · exact le_rfl
      · exact ih.trans (by omega)
    · exact le_rfl

theorem hyb_expandRightFuel_ge (text : List Char) :
    ∀ (fuel e : Nat), e ≤ Hyb.expandRightFuel text e fuel := by
  intro fuel
  induction fuel with
  | zero => intro e; exact le_rfl
  | succ fuel ih =>
    intro e
    unfold Hyb.expandRightFuel
    split
    · split
      · exact le_rfl
      · exact (by omega : e ≤ e + 1).trans (ih (e + 1))
    · exact le_rfl

theorem hyb_expandRightFuel_le (text : List Char) :
    ∀ (fuel e : Nat), e ≤ text.length → Hyb.expandRightFuel text e fuel ≤ text.length := by
  intro fuel
  induction fuel with
  | zero => intro e he; exact he
  | succ fuel ih =>
    intro e he
    unfold Hyb.expandRightFuel
    split
    · rename_i c hc
      split
      · exact he
      · have hlt : e < text.length := by
          by_contra hge
          rw [List.get?_eq_none.mpr (by omega)] at hc
          cases hc
        exact ih (e + 1) (by omega)
    · exact he

theorem hyb_lower_slice (text : List Char) (a b : Nat) :
    Hyb.lowerStr (Hyb.slice text a b) = Hyb.slice (Hyb.lowerStr text) a b := by
  simp [Hyb.lowerStr, Hyb.slice, List.map_take, List.map_drop]

theorem hyb_prefix_slice {needle l : List Char} {ms s e : Nat}
    (hp : needle <+: l.drop ms) (hs : s ≤ ms) (he : ms + needle.length ≤ e) :
    needle <+: (Hyb.slice l s e).drop (ms - s) := by
  unfold Hyb.slice
  rw [List.drop_take, List.drop_drop]
  have hms : s + (ms - s) = ms := by omega
  rw [hms]
  obtain ⟨r, hr⟩ := hp
  rw [← hr]
  rw [List.take_append_eq_append_take]
  rw [List.take_of_length_le (by omega : needle.length ≤ e - s - (ms - s))]
  exact ⟨_, rfl⟩

theorem hyb_ffm_spec (text : List Char) (terms : List (List Char)) (ms me : Nat)
    (h : Hyb.find_first_match text terms = some (ms, me)) :
    ∃ t ∈ terms, Hyb.pyStrip t ≠ [] ∧
      Hyb.findSub (Hyb.lowerStr text) (Hyb.lowerStr (Hyb.pyStrip t)) = some ms ∧
      me = ms + (Hyb.pyStrip t).length := by
  have hC : (terms.foldl (Hyb.ffmStep (Hyb.lowerStr text)) Option.none) = Option.none ∨
      ∃ t ∈ terms, Hyb.pyStrip t ≠ [] ∧
        ∃ pos, Hyb.findSub (Hyb.lowerStr text) (Hyb.lowerStr (Hyb.pyStrip t)) = some pos ∧
          (terms.foldl (Hyb.ffmStep (Hyb.lowerStr text)) Option.none)
            = some (pos, pos + (Hyb.pyStrip t).length) := by
    refine List.foldlRecOn (motive := fun acc => acc = Option.none ∨
      ∃ t ∈ terms, Hyb.pyStrip t ≠ [] ∧
        ∃ pos, Hyb.findSub (Hyb.lowerStr text) (Hyb.lowerStr (Hyb.pyStrip t)) = some pos ∧
          acc = some (pos, pos + (Hyb.pyStrip t).length))
      terms (Hyb.ffmStep (Hyb.lowerStr text)) Option.none (Or.inl rfl) ?_
    intro b hb a ha
    unfold Hyb.ffmStep
    dsimp only
    split
    · exact hb
    · rename_i hne
      split
      · exact hb
      · rename_i pos hpos
        cases b with
        | none => exact Or.inr ⟨a, ha, hne, pos, hpos, rfl⟩
        | some bb =>
          dsimp only
          by_cases hlt : pos < bb.1
          · rw [if_pos hlt]
            exact Or.inr ⟨a, ha, hne, pos, hpos, rfl⟩
          · rw [if_neg hlt]
            exact hb
  rw [Hyb.find_first_match] at h
  rw [h] at hC
  rcases hC with hC | ⟨t, ht, hne, pos, hfind, heq⟩
  · exact absurd hC (by simp)
  · rw [Option.some.injEq, Prod.mk.injEq] at heq
    obtain ⟨h1, h2⟩ := heq
    exact ⟨t, ht, hne, by rw [← h1] at hfind; exact hfind, by omega⟩

/-- C4 amended: for every hit, every returned citation satisfies
`quote == chunk.text[start:end]`; a hit with empty chunk text yields the
single citation `("", 0, 0)`; and whenever a query term matches the chunk
text case-insensitively AND the earliest match span is at most 220 code
points long (the citation window size), the returned quote contains a
case-insensitive occurrence of some query term.  (As stated the claim
omits the length condition; `C4_counterexample` shows it fails for a
longer matched term.) -/
theorem C4_citation_invariants :
    (∀ (text : List Char) (terms : List (List Char)) (url : Option String) (mc : Int),
      ∀ c ∈ Hyb.extract_citations text terms url mc,
        c.quote = Hyb.slice text c.start c.stop)
    ∧ (∀ (terms : List (List Char)) (url : Option String) (mc : Int),
        Hyb.extract_citations [] terms url mc = [⟨[], 0, 0, url⟩])
    ∧ (∀ (text : List Char) (terms : List (List Char)) (url : Option String) (ms me : Nat),
        Hyb.find_first_match text terms = some (ms, me) → me - ms ≤ 220 →
        ∀ c ∈ Hyb.extract_citations text terms url 2,
          ∃ t ∈ terms, Hyb.occursCI t c.quote = true) := by
  refine ⟨?_, ?_, ?_⟩
  · intro text terms url mc c hc
    unfold Hyb.extract_citations at hc
    split at hc
    · rw [List.mem_singleton] at hc
      subst hc
      rfl
    · have hc2 := List.mem_of_mem_take hc
      rw [List.mem_singleton] at hc2
      subst hc2
      cases hm : Hyb.find_first_match text terms with
      | none => rfl
      | some span => rfl
  · intro terms url mc
    rfl
  · intro text terms url ms me hm hlen c hc
    obtain ⟨t, ht, t2ne, hfind, hme⟩ := hyb_ffm_spec text terms ms me hm
    have hlow : (Hyb.lowerStr (Hyb.pyStrip t)).length = (Hyb.pyStrip t).length :=
      hyb_lowerStr_length _
    obtain ⟨hpre, hbound⟩ := hyb_findSub_sound _ _ _ hfind
    have htextlen : (Hyb.lowerStr text).length = text.length := hyb_lowerStr_length text
    have hL1 : 1 ≤ (Hyb.pyStrip t).length := by
      cases hst : Hyb.pyStrip t with
      | nil => exact absurd hst t2ne
      | cons a l => simp [hst]
    have htne : text ≠ [] := by
      intro hemp
      subst hemp
      simp only [List.length_nil] at htextlen
      omega
    unfold Hyb.extract_citations at hc
    rw [if_neg htne, hm] at hc
    have hc2 := List.mem_of_mem_take hc
    rw [List.mem_singleton] at hc2
    subst hc2
    -- window arithmetic
    set L := (Hyb.pyStrip t).length with hLdef
    set center := (ms + me) / 2 with hcdef
    set s0 := center - 220 / 2 with hs0def
    set e0 := min text.length (s0 + 220) with he0def
    have harith : s0 ≤ ms ∧ me ≤ e0 ∧ e0 ≤ text.length := by
      have hmelen : me ≤ text.length := by omega
      constructor
      · omega
      constructor
      · have h1 : me ≤ s0 + 220 := by omega
        omega
      · omega
    obtain ⟨hsms, hmee, he0len⟩ := harith
    -- snapping only widens the window
    have hmin : min e0 text.length = e0 := min_eq_left he0len
    have hstart : Hyb.expandLeft text s0 ≤ ms := (hyb_expandLeft_le text s0).trans hsms
    have hstop1 : me ≤ Hyb.expandRight text e0 :=
      hmee.trans (hyb_expandRightFuel_ge text _ e0)
    have hstop2 : Hyb.expandRight text e0 ≤ text.length :=
      hyb_expandRightFuel_le text _ e0 he0len
    refine ⟨t, ht, ?_⟩
    unfold Hyb.occursCI
    rw [Bool.and_eq_true]
    refine ⟨by simpa using t2ne, ?_⟩
    -- the verbatim slice contains the matched occurrence
    show (Hyb.findSub (Hyb.lowerStr (Hyb.slice text (Hyb.expandLeft text s0)
        (Hyb.expandRight text (min e0 text.length))))
        (Hyb.lowerStr (Hyb.pyStrip t))).isSome = true
    rw [hmin, hyb_lower_slice]
    exact hyb_findSub_complete _ _ (ms - Hyb.expandLeft text s0)
      (hyb_prefix_slice hpre hstart (by omega))

/-- Witness for the amended C4 at a small text where the term `new`
matches: the returned citation (the whole 21-code-point text) contains
the term. -/
theorem C4_citation_invariants_witness :
    ∃ t ∈ Ex.exTerms4,
      Hyb.occursCI t (⟨Ex.exText4, 0, 21, Option.none⟩ : Hyb.Citation).quote = true :=
  C4_citation_invariants.2.2 Ex.exText4 Ex.exTerms4 Option.none 12 15 (by decide) (by decide)
    ⟨Ex.exText4, 0, 21, Option.none⟩ (by decide)

/-- C4 counterexample: for the 300-code-point text `ab ab … abc` and the
single query term equal to that whole text, the term occurs in the chunk
text, yet the returned quote (a 221-code-point window) contains no
occurrence of any query term — refuting the unconditional claim. -/
theorem C4_counterexample :
    (∃ t ∈ [Ex.exP], Hyb.occursCI t Ex.exP = true)
    ∧ (∀ c ∈ Hyb.extract_citations Ex.exP [Ex.exP] Option.none 2,
        ∀ t ∈ [Ex.exP], Hyb.occursCI t c.quote = false) := by
  constructor
  · exact ⟨Ex.exP, by simp, by decide⟩
  · decide

/-! ### C5: hybrid merge, dedup and ranking -/

theorem hyb_any_mem (l : List Hyb.Merged) (c : String) :
    (l.any (fun x => x.chunk_id = c) = true) ↔ c ∈ l.map (fun x => x.chunk_id) := by
  simp only [List.any_eq_true, List.mem_map, decide_eq_true_eq]

theorem hyb_setdefault_keys (l : List Hyb.Merged) (m : Hyb.Merged) :
    (Hyb.setdefaultEntry l m).map (fun x => x.chunk_id)
      = Hyb.insertKey (l.map (fun x => x.chunk_id)) m.chunk_id := by
  unfold Hyb.setdefaultEntry Hyb.insertKey
  by_cases h : m.chunk_id ∈ l.map (fun x => x.chunk_id)
  · rw [if_pos ((hyb_any_mem l m.chunk_id).mpr h), if_pos h]
  · rw [if_neg (fun hh => h ((hyb_any_mem l m.chunk_id).mp hh)), if_neg h]
    simp

theorem hyb_update_keys (l : List Hyb.Merged) (c : String) (f : Hyb.Merged → Hyb.Merged)
    (hf : ∀ m, (f m).chunk_id = m.chunk_id) :
    (Hyb.updateEntry l c f).map (fun x => x.chunk_id) = l.map (fun x => x.chunk_id) := by
  unfold Hyb.updateEntry
  rw [List.map_map]
  apply List.map_congr_left
  intro a _
  by_cases h : a.chunk_id = c
  · simp only [Function.comp_apply, if_pos h, hf]
  · simp only [Function.comp_apply, if_neg h]

theorem hyb_ftsUpd_cid (h : Hyb.FtsHit) (m : Hyb.Merged) :
    ((match m.fts_bm25 with
      | none => { m with fts_bm25 := some h.bm25_score }
      | some b => if h.bm25_score < b then { m with fts_bm25 := some h.bm25_score } else m)
      : Hyb.Merged).chunk_id = m.chunk_id := by
  cases m.fts_bm25 with
  | none => rfl
  | some b =>
    dsimp only
    split <;> rfl

theorem hyb_vecUpd_cid (h : Hyb.VectorHit) (m : Hyb.Merged) :
    ((match m.vector_distance with
      | none => { m with vector_distance := some h.distance }
      | some d => if h.distance < d then { m with vector_distance := some h.distance } else m)
      : Hyb.Merged).chunk_id = m.chunk_id := by
  cases m.vector_distance with
  | none => rfl
  | some d =>
    dsimp only
    split <;> rfl

theorem hyb_ftsStep_keys (l : List Hyb.Merged) (h : Hyb.FtsHit) :
    (Hyb.ftsStep l h).map (fun x => x.chunk_id)
      = Hyb.insertKey (l.map (fun x => x.chunk_id)) h.chunk_id := by
  unfold Hyb.ftsStep
  rw [hyb_update_keys _ _ _ (fun m => by
    cases hm : m.fts_bm25 with
    | none => simp [hm]
    | some b => simp only [hm]; split <;> rfl)]
  exact hyb_setdefault_keys l _

theorem hyb_vecStep_keys (l : List Hyb.Merged) (h : Hyb.VectorHit) :
    (Hyb.vecStep l h).map (fun x => x.chunk_id)
      = Hyb.insertKey (l.map (fun x => x.chunk_id)) h.chunk_id := by
  unfold Hyb.vecStep
  rw [hyb_update_keys _ _ _ (fun m => by
    cases hm : m.vector_distance with
    | none => simp [hm]
    | some d => simp only [hm]; split <;> rfl)]
  exact hyb_setdefault_keys l _

theorem hyb_ftsFold_keys (hits : List Hyb.FtsHit) (l : List Hyb.Merged) :
    ((hits.foldl Hyb.ftsStep l).map (fun x => x.chunk_id))
      = (hits.map (fun h => h.chunk_id)).foldl Hyb.insertKey (l.map (fun x => x.chunk_id)) := by
  induction hits generalizing l with
  | nil => rfl
  | cons h hs ih =>
    simp only [List.foldl_cons, List.map_cons]
    rw [ih, hyb_ftsStep_keys]

theorem hyb_vecFold_keys (hits : List Hyb.VectorHit) (l : List Hyb.Merged) :
    ((hits.foldl Hyb.vecStep l).map (fun x => x.chunk_id))
      = (hits.map (fun h => h.chunk_id)).foldl Hyb.insertKey (l.map (fun x => x.chunk_id)) := by
  induction hits generalizing l with
  | nil => rfl
  | cons h hs ih =>
    simp only [List.foldl_cons, List.map_cons]
    rw [ih, hyb_vecStep_keys]

theorem hyb_merged_keys (fts : List Hyb.FtsHit) (vec : List Hyb.VectorHit) :
    ((vec.foldl Hyb.vecStep (fts.foldl Hyb.ftsStep [])).map (fun x => x.chunk_id))
      = Hyb.allCids fts vec := by
  rw [hyb_vecFold_keys, hyb_ftsFold_keys]
  unfold Hyb.allCids
  rw [List.foldl_append]
  rfl

theorem hyb_insertKey_nodup (cs : List String) :
    ∀ acc : List String, acc.Nodup → (cs.foldl Hyb.insertKey acc).Nodup := by
  induction cs with
  | nil => intro acc h; exact h
  | cons c cs ih =>
    intro acc h
    rw [List.foldl_cons]
    apply ih
    unfold Hyb.insertKey
    by_cases hc : c ∈ acc
    · rw [if_pos hc]; exact h
    · rw [if_neg hc]
      rw [List.nodup_append]
      refine ⟨h, List.nodup_singleton c, ?_⟩
      intro a ha hac
      rw [List.mem_singleton] at hac
      exact hc (hac ▸ ha)

theorem hyb_allCids_nodup (fts : List Hyb.FtsHit) (vec : List Hyb.VectorHit) :
    (Hyb.allCids fts vec).Nodup :=
  hyb_insertKey_nodup _ [] List.nodup_nil

theorem hyb_find_self (l : List Hyb.Merged) (hn : (l.map (fun x => x.chunk_id)).Nodup)
    (m : Hyb.Merged) (hm : m ∈ l) : Hyb.findEntry l m.chunk_id = some m := by
  induction l with
  | nil => cases hm
  | cons x xs ih =>
    rw [List.map_cons, List.nodup_cons] at hn
    cases List.mem_cons.mp hm with
    | inl he =>
      subst he
      unfold Hyb.findEntry
      rw [List.find?_cons_of_pos _ (by simp)]
    | inr hx =>
      have hne : ¬ (x.chunk_id = m.chunk_id) := by
        intro he
        exact hn.1 (he ▸ List.mem_map_of_mem (fun y => y.chunk_id) hx)
      unfold Hyb.findEntry
      rw [List.find?_cons_of_neg _ (by simpa using hne)]
      exact ih hn.2 hx

theorem hyb_findEntry_isSome_setdefault (l : List Hyb.Merged) (m : Hyb.Merged) :
    (Hyb.findEntry (Hyb.setdefaultEntry l m) m.chunk_id).isSome = true := by
  unfold Hyb.setdefaultEntry
  by_cases h : l.any (fun x => x.chunk_id = m.chunk_id)
  · rw [if_pos h]
    rw [List.any_eq_true] at h
    obtain ⟨x, hx, hpx⟩ := h
    unfold Hyb.findEntry
    cases hf : l.find? (fun y => y.chunk_id = m.chunk_id) with
    | some _ => rfl
    | none =>
      rw [List.find?_eq_none] at hf
      exact absurd hpx (by simpa using hf x hx)
  · rw [if_neg h]
    unfold Hyb.findEntry
    rw [List.find?_append]
    cases hf : l.find? (fun x => x.chunk_id = m.chunk_id) with
    | some x =>
      exact absurd (List.find?_isSome.mp (by rw [hf]; rfl)) (by simpa [List.any_eq_true] using h)
    | none => simp

theorem hyb_setdefault_bm (l : List Hyb.Merged) (m : Hyb.Merged) (hbm : m.fts_bm25 = none)
    (cid : String) :
    Hyb.entryBm25 (Hyb.setdefaultEntry l m) cid = Hyb.entryBm25 l cid := by
  unfold Hyb.setdefaultEntry Hyb.entryBm25 Hyb.findEntry
  by_cases h : l.any (fun x => x.chunk_id = m.chunk_id)
  · rw [if_pos h]
  · rw [if_neg h, List.find?_append]
    cases hf : l.find? (fun x => x.chunk_id = cid) with
    | some x => rfl
    | none =>
      dsimp only [Option.or]
      by_cases hc : m.chunk_id = cid
      · rw [List.find?_cons_of_pos _ (by simpa using hc)]
        simpa using hbm
      · rw [List.find?_cons_of_neg _ (by simpa using hc)]
        rfl

theorem hyb_setdefault_dist (l : List Hyb.Merged) (m : Hyb.Merged)
    (hdm : m.vector_distance = none) (cid : String) :
    Hyb.entryDist (Hyb.setdefaultEntry l m) cid = Hyb.entryDist l cid := by
  unfold Hyb.setdefaultEntry Hyb.entryDist Hyb.findEntry
  by_cases h : l.any (fun x => x.chunk_id = m.chunk_id)
  · rw [if_pos h]
  · rw [if_neg h, List.find?_append]
    cases hf : l.find? (fun x => x.chunk_id = cid) with
    | some x => rfl
    | none =>
      dsimp only [Option.or]
      by_cases hc : m.chunk_id = cid
      · rw [List.find?_cons_of_pos _ (by simpa using hc)]
        simpa using hdm
      · rw [List.find?_cons_of_neg _ (by simpa using hc)]
        rfl

theorem hyb_findEntry_update (l : List Hyb.Merged) (c : String) (f : Hyb.Merged → Hyb.Merged)
    (hf : ∀ m, (f m).chunk_id = m.chunk_id) (cid : String) :
    Hyb.findEntry (Hyb.updateEntry l c f) cid
      = (Hyb.findEntry l cid).map (fun m => if m.chunk_id = c then f m else m) := by
  unfold Hyb.findEntry Hyb.updateEntry
  rw [List.find?_map]
  congr 2
  funext m
  by_cases h : m.chunk_id = c
  · simp [Function.comp, h, hf]
  · simp [Function.comp, h]

theorem hyb_findEntry_cid {l : List Hyb.Merged} {cid : String} {m : Hyb.Merged}
    (h : Hyb.findEntry l cid = some m) : m.chunk_id = cid := by
  unfold Hyb.findEntry at h
  simpa using List.find?_some h

theorem hyb_update_proj_at (g : Hyb.Merged → Option ℚ) (l : List Hyb.Merged) (c : String)
    (f : Hyb.Merged → Hyb.Merged) (hf : ∀ m, (f m).chunk_id = m.chunk_id) (cid : String) :
    (match Hyb.findEntry (Hyb.updateEntry l c f) cid with
      | some m => g m
      | none => none)
      = match Hyb.findEntry l cid with
        | some m => if m.chunk_id = c then g (f m) else g m
        | none => none := by
  rw [hyb_findEntry_update l c f hf cid]
  cases Hyb.findEntry l cid with
  | none => rfl
  | some m =>
    dsimp only [Option.map_some']
    by_cases hm : m.chunk_id = c
    · rw [if_pos hm, if_pos hm]
    · rw [if_neg hm, if_neg hm]

theorem hyb_ftsStep_bm (l : List Hyb.Merged) (h : Hyb.FtsHit) (cid : String) :
    Hyb.entryBm25 (Hyb.ftsStep l h) cid
      = if h.chunk_id = cid then Hyb.minStep (Hyb.entryBm25 l cid) h.bm25_score
        else Hyb.entryBm25 l cid := by
  unfold Hyb.ftsStep
  dsimp only
  rw [show Hyb.entryBm25 = fun l cid =>
      (match Hyb.findEntry l cid with | some m => m.fts_bm25 | none => none) from rfl]
  dsimp only
  rw [hyb_update_proj_at (fun m => m.fts_bm25) _ h.chunk_id _ (fun m => hyb_ftsUpd_cid h m) cid]
  have hsd := hyb_setdefault_bm l ⟨h.chunk_id, h.practice_doc_id, none, none, 0⟩ rfl cid
  unfold Hyb.entryBm25 at hsd
  by_cases hc : h.chunk_id = cid
  · subst hc
    cases hfe : Hyb.findEntry
        (Hyb.setdefaultEntry l ⟨h.chunk_id, h.practice_doc_id, none, none, 0⟩) h.chunk_id with
    | none =>
      exact absurd (hyb_findEntry_isSome_setdefault l ⟨h.chunk_id, h.practice_doc_id, none, none, 0⟩)
        (by rw [hfe]; simp)
    | some m0 =>
      rw [hfe] at hsd
      dsimp only at hsd ⊢
      rw [if_pos rfl, if_pos (hyb_findEntry_cid hfe)]
      rw [← hsd]
      cases hb : m0.fts_bm25 with
      | none => rfl
      | some b =>
        dsimp only [Hyb.minStep]
        by_cases hlt : h.bm25_score < b
        · rw [if_pos hlt, if_pos hlt]
        · rw [if_neg hlt, if_neg hlt, hb]
  · rw [if_neg hc, ← hsd]
    cases hfe : Hyb.findEntry
        (Hyb.setdefaultEntry l ⟨h.chunk_id, h.practice_doc_id, none, none, 0⟩) cid with
    | none => rfl
    | some m0 =>
      dsimp only
      rw [if_neg (fun he => hc (((hyb_findEntry_cid hfe).symm.trans he).symm))]

theorem hyb_ftsStep_dist (l : List Hyb.Merged) (h : Hyb.FtsHit) (cid : String) :
    Hyb.entryDist (Hyb.ftsStep l h) cid = Hyb.entryDist l cid := by
  unfold Hyb.ftsStep
  dsimp only
  rw [show Hyb.entryDist = fun l cid =>
      (match Hyb.findEntry l cid with | some m => m.vector_distance | none => none) from rfl]
  dsimp only
  rw [hyb_update_proj_at (fun m => m.vector_distance) _ h.chunk_id _
    (fun m => hyb_ftsUpd_cid h m) cid]
  have hsd := hyb_setdefault_dist l ⟨h.chunk_id, h.practice_doc_id, none, none, 0⟩ rfl cid
  unfold Hyb.entryDist at hsd
  rw [← hsd]
  cases hfe : Hyb.findEntry
      (Hyb.setdefaultEntry l ⟨h.chunk_id, h.practice_doc_id, none, none, 0⟩) cid with
  | none => rfl
  | some m0 =>
    dsimp only
    have hpres : ∀ m : Hyb.Merged,
        ((match m.fts_bm25 with
          | none => { m with fts_bm25 := some h.bm25_score }
          | some b => if h.bm25_score < b then { m with fts_bm25 := some h.bm25_score } else m)
          : Hyb.Merged).vector_distance = m.vector_distance := by
      intro m
      cases m.fts_bm25 with
      | none => rfl
      | some b => dsimp only; split <;> rfl
    by_cases hm : m0.chunk_id = h.chunk_id
    · rw [if_pos hm, hpres]
    · rw [if_neg hm]

theorem hyb_vecStep_dist (l : List Hyb.Merged) (h : Hyb.VectorHit) (cid : String) :
    Hyb.entryDist (Hyb.vecStep l h) cid
      = if h.chunk_id = cid then Hyb.minStep (Hyb.entryDist l cid) h.distance
        else Hyb.entryDist l cid := by
  unfold Hyb.vecStep
  dsimp only
  rw [show Hyb.entryDist = fun l cid =>
      (match Hyb.findEntry l cid with | some m => m.vector_distance | none => none) from rfl]
  dsimp only
  rw [hyb_update_proj_at (fun m => m.vector_distance) _ h.chunk_id _
    (fun m => hyb_vecUpd_cid h m) cid]
  have hsd := hyb_setdefault_dist l ⟨h.chunk_id, h.practice_doc_id, none, none, 0⟩ rfl cid
  unfold Hyb.entryDist at hsd
  by_cases hc : h.chunk_id = cid
  · subst hc
    cases hfe : Hyb.findEntry
        (Hyb.setdefaultEntry l ⟨h.chunk_id, h.practice_doc_id, none, none, 0⟩) h.chunk_id with
    | none =>
      exact absurd (hyb_findEntry_isSome_setdefault l ⟨h.chunk_id, h.practice_doc_id, none, none, 0⟩)
        (by rw [hfe]; simp)
    | some m0 =>
      rw [hfe] at hsd
      dsimp only at hsd ⊢
      rw [if_pos rfl, if_pos (hyb_findEntry_cid hfe)]
      rw [← hsd]
      cases hb : m0.vector_distance with
      | none => rfl
      | some b =>
        dsimp only [Hyb.minStep]
        by_cases hlt : h.distance < b
        · rw [if_pos hlt, if_pos hlt]
        · rw [if_neg hlt, if_neg hlt, hb]
  · rw [if_neg hc, ← hsd]
    cases hfe : Hyb.findEntry
        (Hyb.setdefaultEntry l ⟨h.chunk_id, h.practice_doc_id, none, none, 0⟩) cid with
    | none => rfl
    | some m0 =>
      dsimp only
      rw [if_neg (fun he => hc (((hyb_findEntry_cid hfe).symm.trans he).symm))]

theorem hyb_vecStep_bm (l : List Hyb.Merged) (h : Hyb.VectorHit) (cid : String) :
    Hyb.entryBm25 (Hyb.vecStep l h) cid = Hyb.entryBm25 l cid := by
  unfold Hyb.vecStep
  dsimp only
  rw [show Hyb.entryBm25 = fun l cid =>
      (match Hyb.findEntry l cid with | some m => m.fts_bm25 | none => none) from rfl]
  dsimp only
  rw [hyb_update_proj_at (fun m => m.fts_bm25) _ h.chunk_id _
    (fun m => hyb_vecUpd_cid h m) cid]
  have hsd := hyb_setdefault_bm l ⟨h.chunk_id, h.practice_doc_id, none, none, 0⟩ rfl cid
  unfold Hyb.entryBm25 at hsd
  rw [← hsd]
  cases hfe : Hyb.findEntry
      (Hyb.setdefaultEntry l ⟨h.chunk_id, h.practice_doc_id, none, none, 0⟩) cid with
  | none => rfl
  | some m0 =>
    dsimp only
    have hpres : ∀ m : Hyb.Merged,
        ((match m.vector_distance with
          | none => { m with vector_distance := some h.distance }
          | some d => if h.distance < d then { m with vector_distance := some h.distance } else m)
          : Hyb.Merged).fts_bm25 = m.fts_bm25 := by
      intro m
      cases m.vector_distance with
      | none => rfl
      | some d => dsimp only; split <;> rfl
    by_cases hm : m0.chunk_id = h.chunk_id
    · rw [if_pos hm, hpres]
    · rw [if_neg hm]

theorem hyb_ftsFold_bm (hits : List Hyb.FtsHit) (l : List Hyb.Merged) (cid : String) :
    Hyb.entryBm25 (hits.foldl Hyb.ftsStep l) cid
      = ((hits.filter (fun h => h.chunk_id = cid)).map (fun h => h.bm25_score)).foldl
          Hyb.minStep (Hyb.entryBm25 l cid) := by
  induction hits generalizing l with
  | nil => rfl
  | cons h hs ih =>
    rw [List.foldl_cons, ih, List.filter_cons]
    by_cases hc : h.chunk_id = cid
    · rw [if_pos (by simpa using hc), List.map_cons, List.foldl_cons, hyb_ftsStep_bm,
        if_pos hc]
    · rw [if_neg (by simpa using hc), hyb_ftsStep_bm, if_neg hc]

theorem hyb_ftsFold_dist (hits : List Hyb.FtsHit) (l : List Hyb.Merged) (cid : String) :
    Hyb.entryDist (hits.foldl Hyb.ftsStep l) cid = Hyb.entryDist l cid := by
  induction hits generalizing l with
  | nil => rfl
  | cons h hs ih => rw [List.foldl_cons, ih, hyb_ftsStep_dist]

theorem hyb_vecFold_dist (hits : List Hyb.VectorHit) (l : List Hyb.Merged) (cid : String) :
    Hyb.entryDist (hits.foldl Hyb.vecStep l) cid
      = ((hits.filter (fun h => h.chunk_id = cid)).map (fun h => h.distance)).foldl
          Hyb.minStep (Hyb.entryDist l cid) := by
  induction hits generalizing l with
  | nil => rfl
  | cons h hs ih =>
    rw [List.foldl_cons, ih, List.filter_cons]
    by_cases hc : h.chunk_id = cid
    · rw [if_pos (by simpa using hc), List.map_cons, List.foldl_cons, hyb_vecStep_dist,
        if_pos hc]
    · rw [if_neg (by simpa using hc), hyb_vecStep_dist, if_neg hc]

theorem hyb_vecFold_bm (hits : List Hyb.VectorHit) (l : List Hyb.Merged) (cid : String) :
    Hyb.entryBm25 (hits.foldl Hyb.vecStep l) cid = Hyb.entryBm25 l cid := by
  induction hits generalizing l with
  | nil => rfl
  | cons h hs ih => rw [List.foldl_cons, ih, hyb_vecStep_bm]

theorem hyb_merged_bm (fts : List Hyb.FtsHit) (vec : List Hyb.VectorHit) (cid : String) :
    Hyb.entryBm25 (vec.foldl Hyb.vecStep (fts.foldl Hyb.ftsStep [])) cid
      = Hyb.minBm25 fts cid := by
  rw [hyb_vecFold_bm, hyb_ftsFold_bm]
  rfl

theorem hyb_merged_dist (fts : List Hyb.FtsHit) (vec : List Hyb.VectorHit) (cid : String) :
    Hyb.entryDist (vec.foldl Hyb.vecStep (fts.foldl Hyb.ftsStep [])) cid
      = Hyb.minDist vec cid := by
  rw [hyb_vecFold_dist, hyb_ftsFold_dist]
  rfl

theorem hyb_scored_keys (fts : List Hyb.FtsHit) (vec : List Hyb.VectorHit) :
    (((vec.foldl Hyb.vecStep (fts.foldl Hyb.ftsStep [])).map
        (fun m => { m with score := Hyb.scoreOf m.fts_bm25 m.vector_distance })).map
      (fun x => x.chunk_id)) = Hyb.allCids fts vec := by
  rw [List.map_map]
  rw [show ((fun x : Hyb.Merged => x.chunk_id) ∘
      (fun m : Hyb.Merged => { m with score := Hyb.scoreOf m.fts_bm25 m.vector_distance }))
    = fun x : Hyb.Merged => x.chunk_id from rfl]
  exact hyb_merged_keys fts vec

theorem hyb_scored_fields (fts : List Hyb.FtsHit) (vec : List Hyb.VectorHit) :
    ∀ m ∈ ((vec.foldl Hyb.vecStep (fts.foldl Hyb.ftsStep [])).map
        (fun m => { m with score := Hyb.scoreOf m.fts_bm25 m.vector_distance })),
      m.fts_bm25 = Hyb.minBm25 fts m.chunk_id
      ∧ m.vector_distance = Hyb.minDist vec m.chunk_id
      ∧ m.score = Hyb.scoreOf (Hyb.minBm25 fts m.chunk_id) (Hyb.minDist vec m.chunk_id) := by
  intro m2 hm2
  obtain ⟨m, hm, rfl⟩ := List.mem_map.mp hm2
  have hknodup : ((vec.foldl Hyb.vecStep (fts.foldl Hyb.ftsStep [])).map
      (fun x => x.chunk_id)).Nodup := by
    rw [hyb_merged_keys]
    exact hyb_allCids_nodup fts vec
  have hfind := hyb_find_self _ hknodup m hm
  have hbm := hyb_merged_bm fts vec m.chunk_id
  have hdist := hyb_merged_dist fts vec m.chunk_id
  unfold Hyb.entryBm25 at hbm
  unfold Hyb.entryDist at hdist
  rw [hfind] at hbm hdist
  dsimp only at hbm hdist ⊢
  exact ⟨hbm, hdist, by rw [hbm, hdist]⟩

/-- C5: for all candidate lists and every N, the hybrid merge
deduplicates by `chunk_id`, assigns each retained chunk its lowest bm25
and lowest distance and the score `0.6/(1+bm25) + 0.4/(1+distance)` with
a missing signal contributing 0, sorts by score descending with ties
broken by bm25 ascending (a missing bm25 sorting as the sentinel `1e9`)
then by `chunk_id` ascending, and returns the first N of that order: the
output length is `min N (number of distinct candidate chunk ids)` and
every returned entry sorts no later than any candidate chunk id that was
cut off. -/
theorem C5_merge_and_rank (fts : List Hyb.FtsHit) (vec : List Hyb.VectorHit) (n : Int) :
    ((Hyb.merge_and_rank fts vec n).map (fun m => m.chunk_id)).Nodup
    ∧ (∀ m ∈ Hyb.merge_and_rank fts vec n,
        m.fts_bm25 = Hyb.minBm25 fts m.chunk_id
        ∧ m.vector_distance = Hyb.minDist vec m.chunk_id
        ∧ m.score = Hyb.scoreOf (Hyb.minBm25 fts m.chunk_id) (Hyb.minDist vec m.chunk_id))
    ∧ (Hyb.merge_and_rank fts vec n).Pairwise Hyb.mergedLe
    ∧ ((Hyb.merge_and_rank fts vec n).length = min n.toNat (Hyb.allCids fts vec).length)
    ∧ (∀ m ∈ Hyb.merge_and_rank fts vec n, ∀ cid ∈ Hyb.allCids fts vec,
        cid ∉ (Hyb.merge_and_rank fts vec n).map (fun m => m.chunk_id) →
        Hyb.keyLe (Hyb.sortKey m) (Hyb.specKey fts vec cid)) := by
  by_cases hn : n ≤ 0
  · have hout : Hyb.merge_and_rank fts vec n = [] := by
      unfold Hyb.merge_and_rank
      rw [if_pos hn]
    rw [hout]
    refine ⟨?_, ?_, ?_, ?_, ?_⟩
    · exact List.nodup_nil
    · intro m hm
      cases hm
    · exact List.Pairwise.nil
    · have : n.toNat = 0 := by omega
      simp [this]
    · intro m hm
      cases hm
  · have hout : Hyb.merge_and_rank fts vec n
        = (((vec.foldl Hyb.vecStep (fts.foldl Hyb.ftsStep [])).map
            (fun m => { m with score := Hyb.scoreOf m.fts_bm25 m.vector_distance })).insertionSort
              Hyb.mergedLe).take n.toNat := by
      unfold Hyb.merge_and_rank
      rw [if_neg hn]
    set scored := (vec.foldl Hyb.vecStep (fts.foldl Hyb.ftsStep [])).map
        (fun m => { m with score := Hyb.scoreOf m.fts_bm25 m.vector_distance }) with hscored
    set sorted := scored.insertionSort Hyb.mergedLe with hsorted
    have hperm : List.Perm sorted scored := List.perm_insertionSort Hyb.mergedLe scored
    have hpairwise : sorted.Pairwise Hyb.mergedLe :=
      List.sorted_insertionSort Hyb.mergedLe scored
    have hsortedkeys : (sorted.map (fun x => x.chunk_id)).Perm (Hyb.allCids fts vec) := by
      rw [← hyb_scored_keys fts vec]
      exact hperm.map (fun x => x.chunk_id)
    have hsortednodup : (sorted.map (fun x => x.chunk_id)).Nodup :=
      hsortedkeys.nodup_iff.mpr (hyb_allCids_nodup fts vec)
    rw [hout]
    refine ⟨?_, ?_, ?_, ?_, ?_⟩
    · have hsub : ((sorted.take n.toNat).map (fun x => x.chunk_id)).Sublist
          (sorted.map (fun x => x.chunk_id)) :=
        (List.take_sublist n.toNat sorted).map (fun x => x.chunk_id)
      exact hsortednodup.sublist hsub
    · intro m hm
      exact hyb_scored_fields fts vec m (hperm.mem_iff.mp (List.mem_of_mem_take hm))
    · exact hpairwise.sublist (List.take_sublist n.toNat sorted)
    · rw [List.length_take, hperm.length_eq, ← hyb_scored_keys fts vec]
      simp only [List.length_map, hscored]
    · intro m hm cid hcid hnotin
      have hmem_sorted : m ∈ sorted := List.mem_of_mem_take hm
      have hcid_sorted : cid ∈ sorted.map (fun x => x.chunk_id) :=
        hsortedkeys.mem_iff.mpr hcid
      obtain ⟨m2, hm2sorted, hm2cid⟩ := List.mem_map.mp hcid_sorted
      have hm2drop : m2 ∈ sorted.drop n.toNat := by
        have hsplit : m2 ∈ sorted.take n.toNat ++ sorted.drop n.toNat := by
          rw [List.take_append_drop]
          exact hm2sorted
        rcases List.mem_append.mp hsplit with h | h
        · exact absurd (hm2cid ▸ List.mem_map_of_mem (fun x => x.chunk_id) h) hnotin
        · exact h
      have hle : Hyb.mergedLe m m2 := by
        have hp2 : (sorted.take n.toNat ++ sorted.drop n.toNat).Pairwise Hyb.mergedLe := by
          rw [List.take_append_drop]
          exact hpairwise
        exact (List.pairwise_append.mp hp2).2.2 m hm m2 hm2drop
      have hfields := hyb_scored_fields fts vec m2 (hperm.mem_iff.mp hm2sorted)
      have hkey : Hyb.sortKey m2 = Hyb.specKey fts vec cid := by
        subst hm2cid
        unfold Hyb.sortKey Hyb.specKey
        rw [hfields.2.2, hfields.1]
      rw [← hkey]
      exact hle

/-! ### C10: exactly one citation per hit -/

/-- C10: for every chunk text, term list, source url and `max_citations`
argument, `extract_citations` returns exactly one citation (the code
builds a single-element list and truncates it to `max(1, max_citations)`
elements). -/
theorem C10_exactly_one_citation (text : List Char) (terms : List (List Char))
    (url : Option String) (mc : Int) :
    (Hyb.extract_citations text terms url mc).length = 1 := by
  have h1 : 1 ≤ (max 1 mc).toNat := by omega
  unfold Hyb.extract_citations
  split
  · rfl
  · simp only [List.length_take, List.length_singleton]
    omega

/-! ### C7 and C1: snapshot install and the delta-apply flow -/

theorem pk_find_append_fresh (l : List (String × α)) (k : String) (v : α)
    (h : l.find? (fun kv => kv.1 = k) = Option.none) :
    (l ++ [(k, v)]).find? (fun kv => kv.1 = k) = some (k, v) := by
  induction l with
  | nil => simp
  | cons kv l ih =>
    rw [List.find?_cons] at h
    rw [List.cons_append, List.find?_cons]
    cases hd : (decide (kv.1 = k)) with
    | true => simp only [hd] at h; cases h
    | false => simp only [hd] at h ⊢; exact ih h

theorem alookup_append_fresh (l : List (String × α)) (k : String) (v : α)
    (h : Packs.alookup l k = Option.none) :
    Packs.alookup (l ++ [(k, v)]) k = some v := by
  unfold Packs.alookup at h ⊢
  cases hf : l.find? (fun kv => kv.1 = k) with
  | some x => rw [hf] at h; cases h
  | none => rw [pk_find_append_fresh l k v hf]; rfl

/-- C7: the pack directory `install_snapshot` activates contains exactly
the payload files laid out at the pack root and no copy of
`manifest.json` or `manifest.sig` (both fields are `none`), contradicting
the claim that the install contains those copies; the updater's own
`_apply_snapshot` does copy them, and `apply_delta` and the repo's tests
rely on their presence. -/
theorem C7_install_lacks_manifest (snap : Packs.SnapshotDir) (d : Packs.DataDir)
    (pub : String) (dd : Packs.DataDir)
    (h : Packs.install_snapshot snap d pub = .ok dd) :
    dd.active = some ("staging_" ++ toString d.nextTs)
    ∧ Packs.alookup dd.packs ("staging_" ++ toString d.nextTs)
        = some ⟨snap.payload.map (fun kv => (Packs.pack_rel_from_manifest_path kv.1, kv.2)),
                Option.none, Option.none⟩ := by
  unfold Packs.install_snapshot at h
  cases hv : Packs.verify_snapshot snap pub with
  | error e => rw [hv] at h; exact absurd h (by simp [Bind.bind, Except.bind])
  | ok u =>
    rw [hv] at h
    simp only [Bind.bind, Except.bind] at h
    split at h
    · exact absurd h (by simp [throw, throwThe, MonadExceptOf.throw])
    · split at h
      · exact absurd h (by simp [throw, throwThe, MonadExceptOf.throw])
      · rename_i hfresh
        rw [Except.ok.injEq] at h
        subst h
        refine ⟨rfl, ?_⟩
        apply alookup_append_fresh
        simpa using hfresh

/-- Witness for C7: installing the concrete snapshot A into an empty data
directory yields an active pack whose manifest fields are absent. -/
theorem C7_install_lacks_manifest_witness :
    Ex.dInstallA.active = some ("staging_" ++ toString (0 : Nat))
    ∧ Packs.alookup Ex.dInstallA.packs ("staging_" ++ toString (0 : Nat))
        = some ⟨Ex.snapA.payload.map (fun kv => (Packs.pack_rel_from_manifest_path kv.1, kv.2)),
                Option.none, Option.none⟩ :=
  C7_install_lacks_manifest Ex.snapA {} "key" Ex.dInstallA (by decide)

/-- C1: the install-A-then-apply-delta flow fails on the code.  For the
concrete well-formed snapshots A and B (both verify, and `build_delta`
produces their delta), installing A with `install_snapshot` and then
running `apply_delta` with the target snapshot B raises
`FileNotFoundError` while reading `manifest.json` from the active pack,
because `install_snapshot` never copies the manifest into the install;
the flow therefore cannot yield any file set, while the repo's own
`test_delta_apply.py` asserts that it succeeds. -/
theorem C1_delta_after_install_fails :
    Packs.verify_snapshot Ex.snapA "key" = .ok ()
    ∧ Packs.verify_snapshot Ex.snapB "key" = .ok ()
    ∧ Packs.build_delta Ex.snapA Ex.snapB "key" "stable" "t3" = .ok Ex.deltaAB
    ∧ Packs.install_snapshot Ex.snapA {} "key" = .ok Ex.dInstallA
    ∧ Packs.apply_delta Ex.deltaAB Ex.dInstallA "key" (some Ex.snapB)
        = .error (.os "manifest.json not found in active pack") := by
  refine ⟨by decide, by decide, by decide, by decide, by decide⟩

/-! ### C9: vector index labels and idmap -/

theorem vb_dictFold_append (rs : List VecBuild.ChunkRow) (acc : List (ℤ × String))
    (h : (acc.map Prod.fst ++ rs.map (fun r => r.int_id)).Nodup) :
    rs.foldl (fun a r => VecBuild.dictInsert a r.int_id r.chunk_id) acc
      = acc ++ rs.map (fun r => (r.int_id, r.chunk_id)) := by
  induction rs generalizing acc with
  | nil => simp
  | cons r rs ih =>
    have hmem : ¬ r.int_id ∈ acc.map Prod.fst := by
      intro hm
      rw [List.nodup_append] at h
      exact h.2.2 hm (by simp)
    have hins : VecBuild.dictInsert acc r.int_id r.chunk_id = acc ++ [(r.int_id, r.chunk_id)] := by
      unfold VecBuild.dictInsert
      rw [if_neg]
      simp only [List.any_eq_true, decide_eq_true_eq, not_exists, not_and]
      intro p hp hpk
      exact hmem (hpk ▸ List.mem_map_of_mem Prod.fst hp)
    simp only [List.foldl_cons, hins]
    rw [ih]
    · simp
    · simp only [List.map_append, List.map_cons, List.map_nil]
      have : acc.map Prod.fst ++ [r.int_id] ++ rs.map (fun r => r.int_id)
          = acc.map Prod.fst ++ r.int_id :: rs.map (fun r => r.int_id) := by
        simp
      rw [this]
      simpa using h

theorem vb_chunksOfFuel_join (m : Nat) (hm : 1 ≤ m) :
    ∀ (fuel : Nat) (l : List α), l.length ≤ fuel →
      (VecBuild.chunksOfFuel m fuel l).join = l := by
  intro fuel
  induction fuel with
  | zero =>
    intro l hl
    have : l = [] := List.eq_nil_of_length_eq_zero (Nat.le_zero.mp hl)
    subst this
    rfl
  | succ fuel ih =>
    intro l hl
    cases l with
    | nil => rfl
    | cons x xs =>
      show List.take m (x :: xs) ++ (VecBuild.chunksOfFuel m fuel (List.drop m (x :: xs))).join
          = x :: xs
      rw [ih (List.drop m (x :: xs))
        (by simp only [List.length_drop, List.length_cons] at hl ⊢; omega)]
      exact List.take_append_drop m (x :: xs)

theorem vb_addBatch_join (bs : List (List VecBuild.ChunkRow)) (acc : List (ℤ × String)) :
    bs.foldl VecBuild.addBatch acc
      = bs.join.foldl (fun a r => VecBuild.dictInsert a r.int_id r.chunk_id) acc := by
  induction bs generalizing acc with
  | nil => rfl
  | cons b bs ih =>
    have hj : ((b :: bs) : List (List VecBuild.ChunkRow)).join = b ++ bs.join := rfl
    rw [List.foldl_cons, hj, List.foldl_append]
    exact ih _

/-- C9 counterexample: for the two-row table whose rowids are 1 and 2
while the chunk-id order is reversed, the build assigns labels 1 and 2 in
rowid order, not the dense labels 0 and 1 in sorted chunk-id order that
the claim describes, and the persisted idmap differs from the claimed
bijection. -/
theorem C9_counterexample :
    VecBuild.build_vector_index_idmap Ex.rows9 128 = .ok [(1, "b"), (2, "a")]
    ∧ VecBuild.claimIdmap Ex.rows9 = [(0, "a"), (1, "b")]
    ∧ VecBuild.build_vector_index_idmap Ex.rows9 128
        ≠ .ok (VecBuild.claimIdmap Ex.rows9)
    ∧ VecBuild.build_vector_index_labels Ex.rows9 128 ≠ .ok [0, 1] := by
  refine ⟨by decide, by decide, by decide, by decide⟩

/-- C9 amended: at build time the labels are the chunks' integer rowids,
added in ascending rowid order (not dense `0..N-1` in sorted chunk-id
order), and the persisted idmap records exactly the map rowid → chunk_id
over all rows: its keys are the distinct rowids, and when chunk ids are
distinct the map is a bijection between labels and chunk ids. -/
theorem C9_amended_labels (rows : List VecBuild.ChunkRow) (bs : Nat) (hbs : 1 ≤ bs)
    (hid : (rows.map (fun r => r.int_id)).Nodup) (hne : rows ≠ []) :
    VecBuild.build_vector_index_idmap rows bs
      = .ok ((VecBuild.iter_chunks rows).map (fun r => (r.int_id, r.chunk_id)))
    ∧ ((VecBuild.iter_chunks rows).map (fun r => r.int_id)).Sorted (· ≤ ·)
    ∧ (((VecBuild.iter_chunks rows).map (fun r => (r.int_id, r.chunk_id))).map Prod.fst).Nodup
    ∧ ((rows.map (fun r => r.chunk_id)).Nodup →
        (((VecBuild.iter_chunks rows).map (fun r => (r.int_id, r.chunk_id))).map Prod.snd).Nodup) := by
  have hperm : List.Perm (VecBuild.iter_chunks rows) rows := List.perm_insertionSort _ rows
  have hidit : ((VecBuild.iter_chunks rows).map (fun r => r.int_id)).Nodup :=
    (hperm.map (fun r => r.int_id)).nodup_iff.mpr hid
  have hlen : (VecBuild.iter_chunks rows).length = rows.length := hperm.length_eq
  have h0 : 0 < rows.length := List.length_pos.mpr hne
  refine ⟨?_, ?_, ?_, ?_⟩
  · unfold VecBuild.build_vector_index_idmap
    rw [if_neg (by omega)]
    have htke : (VecBuild.iter_chunks rows).take (min bs rows.length) ≠ [] := by
      intro hemp
      have := congrArg List.length hemp
      simp only [List.length_take, List.length_nil, hlen] at this
      omega
    rw [if_neg htke]
    have hsplit :
        (VecBuild.chunksOf bs ((VecBuild.iter_chunks rows).drop (min bs rows.length))).foldl
            VecBuild.addBatch
            (VecBuild.addBatch [] ((VecBuild.iter_chunks rows).take (min bs rows.length)))
          = (VecBuild.iter_chunks rows).foldl
              (fun a r => VecBuild.dictInsert a r.int_id r.chunk_id) [] := by
      rw [vb_addBatch_join]
      rw [VecBuild.chunksOf, vb_chunksOfFuel_join (max 1 bs) (le_max_left 1 bs) _ _ le_rfl]
      rw [show VecBuild.addBatch [] ((VecBuild.iter_chunks rows).take (min bs rows.length))
            = ((VecBuild.iter_chunks rows).take (min bs rows.length)).foldl
                (fun a r => VecBuild.dictInsert a r.int_id r.chunk_id) [] from rfl]
      rw [← List.foldl_append, List.take_append_drop]
    dsimp only
    rw [hsplit]
    rw [vb_dictFold_append _ _ (by simpa using hidit)]
    simp
  · have hs : ((VecBuild.iter_chunks rows)).Pairwise VecBuild.rowLe :=
      List.sorted_insertionSort VecBuild.rowLe rows
    exact List.pairwise_map.mpr hs
  · rw [List.map_map]
    exact hidit
  · intro hcid
    rw [List.map_map]
    exact ((hperm.map (fun r => r.chunk_id)).nodup_iff.mpr hcid)

/-- Witness for the amended C9 at the concrete two-row table. -/
theorem C9_amended_labels_witness :
    VecBuild.build_vector_index_idmap Ex.rows9 128
      = .ok ((VecBuild.iter_chunks Ex.rows9).map (fun r => (r.int_id, r.chunk_id))) :=
  (C9_amended_labels Ex.rows9 128 (by decide) (by decide) (by decide)).1


/-! ### C2 and C6: the updater's ACTIVE pointer and failure classification -/

theorem upd_check_save (env : Upd.UpdEnv) (d : Packs.DataDir) (st : Packs.UpdState)
    (ch : String) :
    Upd.check_updates env (Upd.save_state d st) ch = Upd.check_updates env d ch := rfl

theorem upd_read_save (d : Packs.DataDir) (st : Packs.UpdState) :
    Upd.read_active_name (Upd.save_state d st) = Upd.read_active_name d := rfl

theorem upd_recover_idle (d : Packs.DataDir) (h : (Upd.load_state d).state = Upd.IDLE) :
    Upd.recover_on_startup d = d := by
  unfold Upd.recover_on_startup
  dsimp only
  rw [if_pos h]

theorem upd_download_missing (env : Upd.UpdEnv) (d : Packs.DataDir) (plan : Upd.UpdatePlan)
    (h : (Packs.alookup env.remote.channels plan.channel).bind
        (fun ch => Packs.alookup ch.arts plan.artifact_ref) = Option.none) :
    Upd.download env d plan = Except.error (Packs.Err.value
      ("Remote artifact missing: " ++ plan.channel ++ "/" ++ plan.artifact_ref)) := by
  unfold Upd.download
  rw [h]

theorem upd_download_ok (env : Upd.UpdEnv) (d : Packs.DataDir) (plan : Upd.UpdatePlan)
    (r : Packs.DataDir × String × Packs.Artifact) (h : Upd.download env d plan = Except.ok r) :
    r.1.active = d.active ∧ r.1.activeWrites = d.activeWrites := by
  unfold Upd.download at h
  cases hl : (Packs.alookup env.remote.channels plan.channel).bind
      (fun ch => Packs.alookup ch.arts plan.artifact_ref) with
  | none => rw [hl] at h; exact Except.noConfusion h
  | some a =>
    rw [hl] at h
    dsimp only at h
    injection h with h1
    subst h1
    exact ⟨rfl, rfl⟩

theorem upd_set_active_writes (d : Packs.DataDir) (nm : String) :
    (Upd.set_active_name_atomic d nm).activeWrites = d.activeWrites ++ [nm]
    ∧ (Upd.set_active_name_atomic d nm).active = some nm := by
  unfold Upd.set_active_name_atomic
  cases d.active <;> exact ⟨rfl, rfl⟩

theorem upd_apply_snapshot_ok (d : Packs.DataDir) (snap : Packs.SnapshotDir)
    (st : Packs.UpdState) (r : Packs.DataDir × Packs.UpdState)
    (h : Upd.apply_snapshot d snap st = Except.ok r) :
    r.1.activeWrites = d.activeWrites ++ ["staging_" ++ toString d.nextTs]
    ∧ r.1.active = some ("staging_" ++ toString d.nextTs) := by
  unfold Upd.apply_snapshot at h
  dsimp only at h
  split at h
  · exact Except.noConfusion h
  · split at h
    · exact Except.noConfusion h
    · split at h
      · exact Except.noConfusion h
      · split at h
        · exact Except.noConfusion h
        · injection h with h1
          subst h1
          exact upd_set_active_writes _ _

theorem pk_apply_delta_ok (delta : Packs.DeltaDir) (d : Packs.DataDir) (pub : String)
    (ts : Option Packs.SnapshotDir) (d2 : Packs.DataDir)
    (h : Packs.apply_delta delta d pub ts = Except.ok d2) :
    d2.activeWrites = d.activeWrites ++ ["staging_" ++ toString d.nextTs]
    ∧ d2.active = some ("staging_" ++ toString d.nextTs) := by
  unfold Packs.apply_delta at h
  dsimp only at h
  split at h
  · exact Except.noConfusion h
  · split at h
    · exact Except.noConfusion h
    · split at h
      · exact Except.noConfusion h
      · split at h
        · exact Except.noConfusion h
        · split at h
          · exact Except.noConfusion h
          · split at h
            · exact Except.noConfusion h
            · split at h
              · exact Except.noConfusion h
              · split at h
                · exact Except.noConfusion h
                · injection h with h1
                  subst h1
                  refine ⟨?_, rfl⟩
                  dsimp only
                  cases d.active <;> rfl

theorem upd_apply_plan_ok (env : Upd.UpdEnv) (d : Packs.DataDir) (plan : Upd.UpdatePlan)
    (art : Packs.Artifact) (st : Packs.UpdState) (r : Packs.DataDir × Packs.UpdState)
    (h : Upd.apply_plan env d plan art st = Except.ok r) :
    ∃ nm, r.1.activeWrites = d.activeWrites ++ [nm] ∧ r.1.active = some nm := by
  unfold Upd.apply_plan at h
  split at h
  · cases art with
    | snap s => exact ⟨_, upd_apply_snapshot_ok d s st r h⟩
    | delta _ => exact Except.noConfusion h
  · cases art with
    | snap _ => exact Except.noConfusion h
    | delta dd =>
      dsimp only at h
      split at h
      · exact Except.noConfusion h
      · injection h with h1
        subst h1
        next d2 heq => exact ⟨_, pk_apply_delta_ok dd d env.pub _ d2 heq⟩

theorem upd_core_active (env : Upd.UpdEnv) (d : Packs.DataDir) (channel trigger : String)
    (hidle : (Upd.load_state d).state = Upd.IDLE) :
    ((Upd.run_once_core env d channel trigger).1.activeWrites = d.activeWrites
      ∨ ∃ nm, (Upd.run_once_core env d channel trigger).1.activeWrites
          = d.activeWrites ++ [nm])
    ∧ (∀ e, (Upd.run_once_core env d channel trigger).2 = Except.error e →
        (Upd.run_once_core env d channel trigger).1.active = d.active
        ∧ (Upd.run_once_core env d channel trigger).1.activeWrites = d.activeWrites) := by
  have hrec : Upd.recover_on_startup d = d := upd_recover_idle d hidle
  unfold Upd.run_once_core
  dsimp only
  rw [hrec]
  split
  · exact ⟨Or.inl rfl, fun e2 h2 => ⟨rfl, rfl⟩⟩
  · exact ⟨Or.inl rfl, fun e2 h2 => Except.noConfusion h2⟩
  · split
    · exact ⟨Or.inl rfl, fun e2 h2 => ⟨rfl, rfl⟩⟩
    · split
      · exact ⟨Or.inl rfl, fun e2 h2 => ⟨rfl, rfl⟩⟩
      · next d1 cache_name art heq =>
        have hdl := upd_download_ok _ _ _ _ heq
        split
        · exact ⟨Or.inl hdl.2, fun e2 h2 => ⟨hdl.1, hdl.2⟩⟩
        · split
          · exact ⟨Or.inl hdl.2, fun e2 h2 => ⟨hdl.1, hdl.2⟩⟩
          · next d3 st3 heq2 =>
            have hap := upd_apply_plan_ok _ _ _ _ _ _ heq2
            obtain ⟨nm, hw, ha⟩ := hap
            refine ⟨Or.inr ⟨nm, ?_⟩, fun e2 h2 => Except.noConfusion h2⟩
            show d3.activeWrites = d.activeWrites ++ [nm]
            rw [hw]
            show d1.activeWrites ++ [nm] = d.activeWrites ++ [nm]
            rw [hdl.2]
            rfl

/-- C2 counterexample: started on a data directory left by a crash after
the `ACTIVE` switch (`state.json` still says CLEANUP), a single successful
`run_once` writes `ACTIVE.txt` twice: once in `recover_on_startup` (back
to `p1`) and once when applying the pending update (to the new staging
pack), contradicting the claim that `ACTIVE` changes at most once per
invocation. -/
theorem C2_counterexample :
    (Upd.run_once Ex.env2 Ex.d2start "stable" "manual").2 = Except.ok ()
    ∧ (Upd.run_once Ex.env2 Ex.d2start "stable" "manual").1.activeWrites
        = ["p1", "staging_11"]
    ∧ Ex.d2start.activeWrites = [] := by
  refine ⟨?_, ?_, rfl⟩ <;> decide

/-- C2 (amended): when `run_once` starts with the persisted updater state
IDLE (so startup recovery has nothing to undo) and the lock free, the run
writes `ACTIVE.txt` at most once (the ghost write log grows by at most
one entry), and when the run fails (returns an error) the `ACTIVE`
pointer and the write log are exactly as before the invocation. -/
theorem C2_active_pointer (env : Upd.UpdEnv) (d : Packs.DataDir) (channel trigger : String)
    (hlock : d.lock = false) (hidle : (Upd.load_state d).state = Upd.IDLE) :
    ((Upd.run_once env d channel trigger).1.activeWrites = d.activeWrites
      ∨ ∃ nm, (Upd.run_once env d channel trigger).1.activeWrites
          = d.activeWrites ++ [nm])
    ∧ (∀ e, (Upd.run_once env d channel trigger).2 = Except.error e →
        (Upd.run_once env d channel trigger).1.active = d.active
        ∧ (Upd.run_once env d channel trigger).1.activeWrites = d.activeWrites) := by
  have hidle2 : (Upd.load_state { d with lock := true }).state = Upd.IDLE := hidle
  have hcore := upd_core_active env { d with lock := true } channel trigger hidle2
  unfold Upd.run_once
  rw [if_neg (by simp [hlock])]
  dsimp only
  cases hr : (Upd.run_once_core env { d with lock := true } channel trigger).2 with
  | ok u =>
    dsimp only
    refine ⟨?_, fun e2 h2 => Except.noConfusion h2⟩
    rcases hcore.1 with hl | ⟨nm, hnm⟩
    · exact Or.inl hl
    · exact Or.inr ⟨nm, hnm⟩
  | error e =>
    dsimp only
    have hres := hcore.2 e hr
    exact ⟨Or.inl hres.2, fun e2 h2 => ⟨hres.1, hres.2⟩⟩

/-- C2 witness: the amended theorem applied to the IDLE data directory
with snapshot A active and the remote advertising snapshot B. -/
theorem C2_active_pointer_witness :
    Ex.d6.lock = false ∧ (Upd.load_state Ex.d6).state = Upd.IDLE
    ∧ (((Upd.run_once Ex.env2 Ex.d6 "stable" "manual").1.activeWrites = Ex.d6.activeWrites
        ∨ ∃ nm, (Upd.run_once Ex.env2 Ex.d6 "stable" "manual").1.activeWrites
            = Ex.d6.activeWrites ++ [nm])
      ∧ (∀ e, (Upd.run_once Ex.env2 Ex.d6 "stable" "manual").2 = Except.error e →
          (Upd.run_once Ex.env2 Ex.d6 "stable" "manual").1.active = Ex.d6.active
          ∧ (Upd.run_once Ex.env2 Ex.d6 "stable" "manual").1.activeWrites
              = Ex.d6.activeWrites)) :=
  ⟨rfl, rfl, C2_active_pointer Ex.env2 Ex.d6 "stable" "manual" rfl rfl⟩

/-- C6 counterexample: with snapshot A active and the channel advertising
snapshot B whose artifact directory is absent, `run_once` persists
FAILED_HARD (`_download` raises `ValueError`, which the error handler
classifies as hard), contradicting the claim that an absent remote
artifact ends in FAILED_RETRYABLE. -/
theorem C6_counterexample :
    (Upd.load_state (Upd.run_once Ex.env6 Ex.d6 "stable" "manual").1).state
      = Upd.FAILED_HARD
    ∧ (Upd.run_once Ex.env6 Ex.d6 "stable" "manual").2
        = Except.error (Packs.Err.value "Remote artifact missing: stable/snapshots/v2")
    ∧ Upd.FAILED_HARD ≠ Upd.FAILED_RETRYABLE := by
  refine ⟨?_, ?_, ?_⟩ <;> decide

/-- C6 (amended): whenever the lock is free, the channel check plans an
update, the active pack name is readable, and the planned artifact is
absent from the remote channel directory, `run_once` raises the
`ValueError` of `_download` and the persisted state ends in FAILED_HARD
(not FAILED_RETRYABLE). -/
theorem C6_missing_artifact_failed_hard (env : Upd.UpdEnv) (d : Packs.DataDir)
    (channel trigger : String) (plan : Upd.UpdatePlan) (ab : String)
    (hlock : d.lock = false)
    (hcheck : Upd.check_updates env (Upd.recover_on_startup { d with lock := true }) channel
        = Except.ok (some plan))
    (hab : Upd.read_active_name (Upd.recover_on_startup { d with lock := true })
        = Except.ok ab)
    (hart : (Packs.alookup env.remote.channels plan.channel).bind
        (fun ch => Packs.alookup ch.arts plan.artifact_ref) = Option.none) :
    (Upd.load_state (Upd.run_once env d channel trigger).1).state = Upd.FAILED_HARD
    ∧ (Upd.run_once env d channel trigger).2
        = Except.error (Packs.Err.value
            ("Remote artifact missing: " ++ plan.channel ++ "/" ++ plan.artifact_ref)) := by
  have hcore : (Upd.run_once_core env { d with lock := true } channel trigger).2
      = Except.error (Packs.Err.value
          ("Remote artifact missing: " ++ plan.channel ++ "/" ++ plan.artifact_ref)) := by
    unfold Upd.run_once_core
    dsimp only
    rw [upd_check_save, hcheck]
    dsimp only
    rw [upd_read_save, hab]
    dsimp only
    rw [upd_download_missing env _ plan hart]
  unfold Upd.run_once
  rw [if_neg (by simp [hlock])]
  dsimp only
  rw [hcore]
  exact ⟨rfl, rfl⟩

/-- C6 witness: the amended theorem applied to the data directory with
snapshot A active and the remote whose advertised snapshot artifact is
absent. -/
theorem C6_missing_artifact_failed_hard_witness :
    Ex.d6.lock = false
    ∧ ((Upd.load_state (Upd.run_once Ex.env6 Ex.d6 "stable" "manual").1).state
          = Upd.FAILED_HARD
      ∧ (Upd.run_once Ex.env6 Ex.d6 "stable" "manual").2
          = Except.error (Packs.Err.value "Remote artifact missing: stable/snapshots/v2")) :=
  ⟨rfl, C6_missing_artifact_failed_hard Ex.env6 Ex.d6 "stable" "manual"
    ⟨"snapshot", "stable", "pk", Option.none, "v2", "snapshot_dir", "snapshots/v2",
     Option.none, Ex.shaB⟩ "p1" rfl (by decide) (by decide) (by decide)⟩

/-! ### C8: canonical JSON serialization -/

theorem can_coerce_nonfinite (k : Canon.PyKey) (h : Canon.keyNonFinite k = true) :
    Canon.isError (Canon.coerceKey k) = true := by
  cases k with
  | str s => exact Bool.noConfusion h
  | int n => exact Bool.noConfusion h
  | bool b => exact Bool.noConfusion h
  | none => exact Bool.noConfusion h
  | other t => exact Bool.noConfusion h
  | float f =>
    cases f with
    | finite q => exact Bool.noConfusion h
    | nan => rfl
    | inf => rfl
    | ninf => rfl

theorem can_coerce_other (k : Canon.PyKey) (h : Canon.keyIsOther k = true) :
    Canon.isError (Canon.coerceKey k) = true := by
  cases k with
  | str s => exact Bool.noConfusion h
  | int n => exact Bool.noConfusion h
  | bool b => exact Bool.noConfusion h
  | none => exact Bool.noConfusion h
  | float f => exact Bool.noConfusion h
  | other t => rfl

theorem can_keyIsStr (k : Canon.PyKey) (h : Canon.keyIsStr k = true) :
    ∃ s, k = Canon.PyKey.str s := by
  cases k with
  | str s => exact ⟨s, rfl⟩
  | int n => exact Bool.noConfusion h
  | bool b => exact Bool.noConfusion h
  | none => exact Bool.noConfusion h
  | float f => exact Bool.noConfusion h
  | other t => exact Bool.noConfusion h

theorem can_assemble_err (l : List (Canon.PyKey × String))
    (h : ∃ p ∈ l, Canon.isError (Canon.coerceKey p.1) = true) :
    Canon.isError (Canon.assembleItems l) = true := by
  induction l with
  | nil => obtain ⟨p, hp, _⟩ := h; cases hp
  | cons x xs ih =>
    obtain ⟨k, vs⟩ := x
    obtain ⟨p, hp, hpe⟩ := h
    cases hc : Canon.coerceKey k with
    | error e => simp [Canon.assembleItems, hc, Bind.bind, Except.bind, Canon.isError]
    | ok ks =>
      have hxs : ∃ p ∈ xs, Canon.isError (Canon.coerceKey p.1) = true := by
        rcases List.mem_cons.mp hp with rfl | hm
        · rw [hc] at hpe; exact Bool.noConfusion hpe
        · exact ⟨p, hm, hpe⟩
      have herr := ih hxs
      cases ha : Canon.assembleItems xs with
      | error e => simp [Canon.assembleItems, hc, ha, Bind.bind, Except.bind, Canon.isError]
      | ok r => rw [ha] at herr; exact absurd herr (by simp [Canon.isError])

theorem can_assemble_ok (l : List (Canon.PyKey × String))
    (h : ∀ p ∈ l, Canon.keyIsStr p.1 = true) :
    ∃ r, Canon.assembleItems l = Except.ok r := by
  induction l with
  | nil => exact ⟨[], rfl⟩
  | cons x xs ih =>
    obtain ⟨k, vs⟩ := x
    obtain ⟨s, rfl⟩ := can_keyIsStr k (h (k, vs) (by simp))
    obtain ⟨r, hr⟩ := ih (fun p hp => h p (List.mem_cons_of_mem _ hp))
    exact ⟨(Canon.jsonQuote s ++ ":" ++ vs) :: r,
      by simp [Canon.assembleItems, Canon.coerceKey, hr, Bind.bind, Except.bind]⟩

theorem can_insert_perm (x : Canon.PyKey × String) (ys : List (Canon.PyKey × String))
    (r : List (Canon.PyKey × String)) (h : Canon.insertPairM x ys = Except.ok r) :
    List.Perm r (x :: ys) := by
  induction ys generalizing r with
  | nil =>
    unfold Canon.insertPairM at h
    injection h with h1
    subst h1
    exact List.Perm.refl _
  | cons y ys ih =>
    unfold Canon.insertPairM at h
    cases hb : Canon.pyKeyLt y.1 x.1 with
    | error e => rw [hb] at h; simp [Bind.bind, Except.bind] at h
    | ok b =>
      rw [hb] at h
      simp only [Bind.bind, Except.bind] at h
      cases b with
      | false =>
        simp only [Bool.false_eq_true, if_false] at h
        injection h with h1
        subst h1
        exact List.Perm.refl _
      | true =>
        simp only [if_true] at h
        cases hr2 : Canon.insertPairM x ys with
        | error e => rw [hr2] at h; simp [Bind.bind, Except.bind] at h
        | ok rest =>
          rw [hr2] at h
          simp only [Bind.bind, Except.bind] at h
          injection h with h1
          subst h1
          exact (List.Perm.cons y (ih rest hr2)).trans (List.Perm.swap x y ys)

theorem can_sort_perm (l r : List (Canon.PyKey × String))
    (h : Canon.sortItemsM l = Except.ok r) : List.Perm r l := by
  induction l generalizing r with
  | nil =>
    unfold Canon.sortItemsM at h
    injection h with h1
    subst h1
    exact List.Perm.refl _
  | cons x xs ih =>
    unfold Canon.sortItemsM at h
    cases hr1 : Canon.sortItemsM xs with
    | error e => rw [hr1] at h; simp [Bind.bind, Except.bind] at h
    | ok rest =>
      rw [hr1] at h
      simp only [Bind.bind, Except.bind] at h
      exact (can_insert_perm x rest r h).trans (List.Perm.cons x (ih rest hr1))

theorem can_insert_str (x : Canon.PyKey × String) (ys : List (Canon.PyKey × String))
    (hx : Canon.keyIsStr x.1 = true) (hys : ∀ p ∈ ys, Canon.keyIsStr p.1 = true) :
    ∃ r, Canon.insertPairM x ys = Except.ok r ∧ ∀ p ∈ r, Canon.keyIsStr p.1 = true := by
  induction ys with
  | nil =>
    refine ⟨[x], rfl, ?_⟩
    intro p hp
    rw [List.mem_singleton] at hp
    subst hp
    exact hx
  | cons y ys ih =>
    obtain ⟨a, hxa⟩ := can_keyIsStr x.1 hx
    obtain ⟨b, hyb⟩ := can_keyIsStr y.1 (hys y (by simp))
    have hlt : Canon.pyKeyLt y.1 x.1 = Except.ok (decide (b.toList < a.toList)) := by
      rw [hyb, hxa]
      rfl
    cases hd : decide (b.toList < a.toList) with
    | true =>
      obtain ⟨r, hr, hrs⟩ := ih (fun p hp => hys p (List.mem_cons_of_mem _ hp))
      refine ⟨y :: r, ?_, ?_⟩
      · rw [hd] at hlt
        simp [Canon.insertPairM, hlt, hr, Bind.bind, Except.bind]
      · intro p hp
        rcases List.mem_cons.mp hp with rfl | hm
        · exact hys p (by simp)
        · exact hrs p hm
    | false =>
      refine ⟨x :: y :: ys, ?_, ?_⟩
      · rw [hd] at hlt
        simp [Canon.insertPairM, hlt, Bind.bind, Except.bind]
      · intro p hp
        rcases List.mem_cons.mp hp with rfl | hm
        · exact hx
        · exact hys p hm

theorem can_sort_str (l : List (Canon.PyKey × String))
    (h : ∀ p ∈ l, Canon.keyIsStr p.1 = true) :
    ∃ r, Canon.sortItemsM l = Except.ok r ∧ ∀ p ∈ r, Canon.keyIsStr p.1 = true := by
  induction l with
  | nil => exact ⟨[], rfl, by intro p hp; cases hp⟩
  | cons x xs ih =>
    obtain ⟨rest, hrest, hrs⟩ := ih (fun p hp => h p (List.mem_cons_of_mem _ hp))
    obtain ⟨r, hr, hstr⟩ := can_insert_str x rest (h x (by simp)) hrs
    exact ⟨r, by simp [Canon.sortItemsM, hrest, hr, Bind.bind, Except.bind], hstr⟩

theorem can_serObj_keys (kvs : Canon.PyItems) (pairs : List (Canon.PyKey × String))
    (h : Canon.serObjVals kvs = Except.ok pairs) :
    pairs.map Prod.fst = Canon.keysOf kvs := by
  match kvs with
  | .nil =>
    injection h with h1
    subst h1
    rfl
  | .cons k v xs =>
    cases he : Canon.serVal v with
    | error e => simp [Canon.serObjVals, he, Bind.bind, Except.bind] at h
    | ok s =>
      cases hr : Canon.serObjVals xs with
      | error e => simp [Canon.serObjVals, he, hr, Bind.bind, Except.bind] at h
      | ok rest =>
        simp only [Canon.serObjVals, he, hr, Bind.bind, Except.bind,
          Except.ok.injEq] at h
        subst h
        have hk := can_serObj_keys xs rest hr
        simp [Canon.keysOf, hk]

mutual
theorem can_serVal_ok (v : Canon.PyVal) (h : Canon.isCanonical v = true) :
    ∃ s, Canon.serVal v = Except.ok s := by
  match v with
  | .none => exact ⟨"null", rfl⟩
  | .bool b => exact ⟨if b then "true" else "false", rfl⟩
  | .int n => exact ⟨toString n, rfl⟩
  | .str s => exact ⟨Canon.jsonQuote s, rfl⟩
  | .float (.finite q) => exact ⟨Canon.floatRepr q, rfl⟩
  | .float .nan => exact Bool.noConfusion h
  | .float .inf => exact Bool.noConfusion h
  | .float .ninf => exact Bool.noConfusion h
  | .arr xs =>
    obtain ⟨l, hl⟩ := can_serArr_ok xs (by simpa [Canon.isCanonical] using h)
    exact ⟨"[" ++ String.intercalate "," l ++ "]",
      by simp [Canon.serVal, hl, Bind.bind, Except.bind]⟩
  | .obj kvs =>
    obtain ⟨pairs, hp, hstr⟩ := can_serObj_ok kvs (by simpa [Canon.isCanonical] using h)
    obtain ⟨sorted, hs, hstr2⟩ := can_sort_str pairs hstr
    obtain ⟨parts, hparts⟩ := can_assemble_ok sorted hstr2
    exact ⟨"\x7b" ++ String.intercalate "," parts ++ "\x7d",
      by simp [Canon.serVal, hp, hs, hparts, Bind.bind, Except.bind]⟩
theorem can_serArr_ok (xs : Canon.PyList) (h : Canon.isCanonicalArr xs = true) :
    ∃ l, Canon.serArr xs = Except.ok l := by
  match xs with
  | .nil => exact ⟨[], rfl⟩
  | .cons x xs =>
    simp only [Canon.isCanonicalArr, Bool.and_eq_true] at h
    obtain ⟨s, hs⟩ := can_serVal_ok x h.1
    obtain ⟨l, hl⟩ := can_serArr_ok xs h.2
    exact ⟨s :: l, by simp [Canon.serArr, hs, hl, Bind.bind, Except.bind]⟩
theorem can_serObj_ok (kvs : Canon.PyItems) (h : Canon.isCanonicalObj kvs = true) :
    ∃ pairs, Canon.serObjVals kvs = Except.ok pairs
      ∧ ∀ p ∈ pairs, Canon.keyIsStr p.1 = true := by
  match kvs with
  | .nil => exact ⟨[], rfl, by intro p hp; cases hp⟩
  | .cons k v xs =>
    simp only [Canon.isCanonicalObj, Bool.and_eq_true] at h
    obtain ⟨⟨h1, h2⟩, h3⟩ := h
    obtain ⟨s, hs⟩ := can_serVal_ok v h2
    obtain ⟨rest, hr, hrs⟩ := can_serObj_ok xs h3
    refine ⟨(k, s) :: rest, ?_, ?_⟩
    · simp [Canon.serObjVals, hs, hr, Bind.bind, Except.bind]
    · intro p hp
      rcases List.mem_cons.mp hp with rfl | hm
      · exact h1
      · exact hrs p hm
end

mutual
theorem can_serVal_nf (v : Canon.PyVal) (h : Canon.hasNonFinite v = true) :
    Canon.isError (Canon.serVal v) = true := by
  match v with
  | .none => exact Bool.noConfusion h
  | .bool b => exact Bool.noConfusion h
  | .int n => exact Bool.noConfusion h
  | .str s => exact Bool.noConfusion h
  | .float (.finite q) => exact Bool.noConfusion h
  | .float .nan => rfl
  | .float .inf => rfl
  | .float .ninf => rfl
  | .arr xs =>
    have hb := can_serArr_nf xs (by simpa [Canon.hasNonFinite] using h)
    cases he : Canon.serArr xs with
    | error e => simp [Canon.serVal, he, Bind.bind, Except.bind, Canon.isError]
    | ok l => rw [he] at hb; exact absurd hb (by simp [Canon.isError])
  | .obj kvs =>
    have hkp : ∀ pairs, Canon.serObjVals kvs = Except.ok pairs →
        ∃ p ∈ pairs, Canon.isError (Canon.coerceKey p.1) = true := by
      intro pairs hp
      rcases can_serObj_nf kvs (by simpa [Canon.hasNonFinite] using h) with herr | ⟨k, hk, hknf⟩
      · rw [hp] at herr; exact absurd herr (by simp [Canon.isError])
      · rw [← can_serObj_keys kvs pairs hp] at hk
        obtain ⟨p, hpm, hpk⟩ := List.mem_map.mp hk
        refine ⟨p, hpm, ?_⟩
        rw [hpk]
        exact can_coerce_nonfinite k hknf
    cases hp : Canon.serObjVals kvs with
    | error e => simp [Canon.serVal, hp, Bind.bind, Except.bind, Canon.isError]
    | ok pairs =>
      cases hs : Canon.sortItemsM pairs with
      | error e => simp [Canon.serVal, hp, hs, Bind.bind, Except.bind, Canon.isError]
      | ok sorted =>
        have hperm := can_sort_perm pairs sorted hs
        obtain ⟨p, hpm, hpe⟩ := hkp pairs hp
        have herr := can_assemble_err sorted ⟨p, hperm.mem_iff.mpr hpm, hpe⟩
        cases ha : Canon.assembleItems sorted with
        | error e => simp [Canon.serVal, hp, hs, ha, Bind.bind, Except.bind, Canon.isError]
        | ok parts => rw [ha] at herr; exact absurd herr (by simp [Canon.isError])
theorem can_serArr_nf (xs : Canon.PyList) (h : Canon.hasNonFiniteArr xs = true) :
    Canon.isError (Canon.serArr xs) = true := by
  match xs with
  | .nil => exact Bool.noConfusion h
  | .cons x xs =>
    simp only [Canon.hasNonFiniteArr, Bool.or_eq_true] at h
    cases he : Canon.serVal x with
    | error e => simp [Canon.serArr, he, Bind.bind, Except.bind, Canon.isError]
    | ok s =>
      rcases h with hx | hxs
      · have := can_serVal_nf x hx
        rw [he] at this
        exact absurd this (by simp [Canon.isError])
      · have hrest := can_serArr_nf xs hxs
        cases hr : Canon.serArr xs with
        | error e => simp [Canon.serArr, he, hr, Bind.bind, Except.bind, Canon.isError]
        | ok l => rw [hr] at hrest; exact absurd hrest (by simp [Canon.isError])
theorem can_serObj_nf (kvs : Canon.PyItems) (h : Canon.hasNonFiniteObj kvs = true) :
    Canon.isError (Canon.serObjVals kvs) = true
    ∨ ∃ k ∈ Canon.keysOf kvs, Canon.keyNonFinite k = true := by
  match kvs with
  | .nil => exact Bool.noConfusion h
  | .cons k v xs =>
    simp only [Canon.hasNonFiniteObj, Bool.or_eq_true] at h
    rcases h with (hk | hv) | hxs
    · exact Or.inr ⟨k, List.mem_cons_self k _, hk⟩
    · cases he : Canon.serVal v with
      | error e =>
        exact Or.inl (by simp [Canon.serObjVals, he, Bind.bind, Except.bind, Canon.isError])
      | ok s =>
        have := can_serVal_nf v hv
        rw [he] at this
        exact absurd this (by simp [Canon.isError])
    · rcases can_serObj_nf xs hxs with herr | ⟨k2, hk2, hnf2⟩
      · cases he : Canon.serVal v with
        | error e =>
          exact Or.inl (by simp [Canon.serObjVals, he, Bind.bind, Except.bind, Canon.isError])
        | ok s =>
          cases hr : Canon.serObjVals xs with
          | error e =>
            exact Or.inl
              (by simp [Canon.serObjVals, he, hr, Bind.bind, Except.bind, Canon.isError])
          | ok rest => rw [hr] at herr; exact absurd herr (by simp [Canon.isError])
      · exact Or.inr ⟨k2, List.mem_cons_of_mem k hk2, hnf2⟩
end

mutual
theorem can_serVal_other (v : Canon.PyVal) (h : Canon.hasOtherKey v = true) :
    Canon.isError (Canon.serVal v) = true := by
  match v with
  | .none => exact Bool.noConfusion h
  | .bool b => exact Bool.noConfusion h
  | .int n => exact Bool.noConfusion h
  | .str s => exact Bool.noConfusion h
  | .float f => exact Bool.noConfusion h
  | .arr xs =>
    have hb := can_serArr_other xs (by simpa [Canon.hasOtherKey] using h)
    cases he : Canon.serArr xs with
    | error e => simp [Canon.serVal, he, Bind.bind, Except.bind, Canon.isError]
    | ok l => rw [he] at hb; exact absurd hb (by simp [Canon.isError])
  | .obj kvs =>
    have hkp : ∀ pairs, Canon.serObjVals kvs = Except.ok pairs →
        ∃ p ∈ pairs, Canon.isError (Canon.coerceKey p.1) = true := by
      intro pairs hp
      rcases can_serObj_other kvs (by simpa [Canon.hasOtherKey] using h) with herr | ⟨k, hk, hko⟩
      · rw [hp] at herr; exact absurd herr (by simp [Canon.isError])
      · rw [← can_serObj_keys kvs pairs hp] at hk
        obtain ⟨p, hpm, hpk⟩ := List.mem_map.mp hk
        refine ⟨p, hpm, ?_⟩
        rw [hpk]
        exact can_coerce_other k hko
    cases hp : Canon.serObjVals kvs with
    | error e => simp [Canon.serVal, hp, Bind.bind, Except.bind, Canon.isError]
    | ok pairs =>
      cases hs : Canon.sortItemsM pairs with
      | error e => simp [Canon.serVal, hp, hs, Bind.bind, Except.bind, Canon.isError]
      | ok sorted =>
        have hperm := can_sort_perm pairs sorted hs
        obtain ⟨p, hpm, hpe⟩ := hkp pairs hp
        have herr := can_assemble_err sorted ⟨p, hperm.mem_iff.mpr hpm, hpe⟩
        cases ha : Canon.assembleItems sorted with
        | error e => simp [Canon.serVal, hp, hs, ha, Bind.bind, Except.bind, Canon.isError]
        | ok parts => rw [ha] at herr; exact absurd herr (by simp [Canon.isError])
theorem can_serArr_other (xs : Canon.PyList) (h : Canon.hasOtherKeyArr xs = true) :
    Canon.isError (Canon.serArr xs) = true := by
  match xs with
  | .nil => exact Bool.noConfusion h
  | .cons x xs =>
    simp only [Canon.hasOtherKeyArr, Bool.or_eq_true] at h
    cases he : Canon.serVal x with
    | error e => simp [Canon.serArr, he, Bind.bind, Except.bind, Canon.isError]
    | ok s =>
      rcases h with hx | hxs
      · have := can_serVal_other x hx
        rw [he] at this
        exact absurd this (by simp [Canon.isError])
      · have hrest := can_serArr_other xs hxs
        cases hr : Canon.serArr xs with
        | error e => simp [Canon.serArr, he, hr, Bind.bind, Except.bind, Canon.isError]
        | ok l => rw [hr] at hrest; exact absurd hrest (by simp [Canon.isError])
theorem can_serObj_other (kvs : Canon.PyItems) (h : Canon.hasOtherKeyObj kvs = true) :
    Canon.isError (Canon.serObjVals kvs) = true
    ∨ ∃ k ∈ Canon.keysOf kvs, Canon.keyIsOther k = true := by
  match kvs with
  | .nil => exact Bool.noConfusion h
  | .cons k v xs =>
    simp only [Canon.hasOtherKeyObj, Bool.or_eq_true] at h
    rcases h with (hk | hv) | hxs
    · exact Or.inr ⟨k, List.mem_cons_self k _, hk⟩
    · cases he : Canon.serVal v with
      | error e =>
        exact Or.inl (by simp [Canon.serObjVals, he, Bind.bind, Except.bind, Canon.isError])
      | ok s =>
        have := can_serVal_other v hv
        rw [he] at this
        exact absurd this (by simp [Canon.isError])
    · rcases can_serObj_other xs hxs with herr | ⟨k2, hk2, ho2⟩
      · cases he : Canon.serVal v with
        | error e =>
          exact Or.inl (by simp [Canon.serObjVals, he, Bind.bind, Except.bind, Canon.isError])
        | ok s =>
          cases hr : Canon.serObjVals xs with
          | error e =>
            exact Or.inl
              (by simp [Canon.serObjVals, he, hr, Bind.bind, Except.bind, Canon.isError])
          | ok rest => rw [hr] at herr; exact absurd herr (by simp [Canon.isError])
      · exact Or.inr ⟨k2, List.mem_cons_of_mem k hk2, ho2⟩
end

/-- C8 counterexample: the mapping `\x7b1: "a"\x7d` contains a non-string
(integer) key, yet canonical serialization succeeds and produces
`\x7b"1":"a"\x7d` — `json.dumps` coerces int/float/bool/None keys to
strings instead of raising, so the claimed failure condition
"mapping with a non-string key" is wrong. -/
theorem C8_counterexample :
    Canon.hasNonStrKey Ex.exIntKeyObj = true
    ∧ Canon.serVal Ex.exIntKeyObj = Except.ok "\x7b\"1\":\"a\"\x7d" := by
  refine ⟨?_, ?_⟩ <;> decide

/-- C8 (amended): canonical serialization fails for every input
containing a non-finite number (as a value or as a mapping key) and for
every input containing a mapping key outside str/int/float/bool/None
(the key types the encoder coerces); it succeeds on every CanonicalValue
(finite numbers only, every mapping key a string).  Serialization is a
pure function of the value, so equal values yield identical bytes. -/
theorem C8_serialization :
    (∀ v, Canon.hasNonFinite v = true → Canon.isError (Canon.serVal v) = true)
    ∧ (∀ v, Canon.hasOtherKey v = true → Canon.isError (Canon.serVal v) = true)
    ∧ (∀ v, Canon.isCanonical v = true → ∃ s, Canon.serVal v = Except.ok s) :=
  ⟨fun v h => can_serVal_nf v h, fun v h => can_serVal_other v h,
   fun v h => can_serVal_ok v h⟩

/-- C8 witness: the amended theorem applied to a list containing NaN, a
mapping with a tuple key, and a canonical nested value. -/
theorem C8_serialization_witness :
    (Canon.hasNonFinite Ex.exNan = true ∧ Canon.isError (Canon.serVal Ex.exNan) = true)
    ∧ (Canon.hasOtherKey Ex.exOtherKey = true
        ∧ Canon.isError (Canon.serVal Ex.exOtherKey) = true)
    ∧ (Canon.isCanonical Ex.exCanon = true
        ∧ ∃ s, Canon.serVal Ex.exCanon = Except.ok s) :=
  ⟨⟨by decide, C8_serialization.1 Ex.exNan (by decide)⟩,
   ⟨by decide, C8_serialization.2.1 Ex.exOtherKey (by decide)⟩,
   ⟨by decide, C8_serialization.2.2 Ex.exCanon (by decide)⟩⟩
end LexSpec
